import Mathlib

/-!
Verification of the journalism-finance library's mortgage calculation engine.

The repository ships five functions (`adjustToInflation`, `getYahooFinanceData`,
`mortgageInsurancePremium`, `mortgageMaxAmount`, `mortgagePayments`) through two
entry modules.  The implementation files `src/finance/*.ts` are not part of the
source tree available here (only the entry module `src/index.ts` and the package
documentation are), so the finance functions themselves are modelled from the
specification, with exact rational/real arithmetic in place of JavaScript
floating point.  Definitions marked `Modelled from the spec:` carry that status.
-/

namespace JournalismFinance

/-- Error taxonomy of the library: `invalidInput` (down payment below 5 % of
price, non-positive income) and `invalidConfiguration` (amortization period
shorter than the term). -/
inductive FinanceError where
  | invalidInput
  | invalidConfiguration
deriving DecidableEq

/-- The supported payment frequencies of `mortgagePayments`. -/
inductive PaymentFrequency where
  | weekly
  | biWeekly
  | monthly
  | semiMonthly
  | acceleratedWeekly
  | acceleratedBiWeekly
deriving DecidableEq

/-- Payments per year for each frequency (weekly 52, bi-weekly 26, monthly 12,
semi-monthly 24; the accelerated variants are disbursed at the weekly /
bi-weekly cadence). -/
def paymentsPerYear : PaymentFrequency → ℕ
  | .weekly => 52
  | .biWeekly => 26
  | .monthly => 12
  | .semiMonthly => 24
  | .acceleratedWeekly => 52
  | .acceleratedBiWeekly => 26

/-- Modelled from the spec: the accelerated variants keep the payment amount of
the non-accelerated monthly-equivalent, i.e. the monthly payment divided by 4
(accelerated weekly) resp. 2 (accelerated bi-weekly); standard frequencies are
undivided. -/
def accelerationDivisor : PaymentFrequency → ℕ
  | .acceleratedWeekly => 4
  | .acceleratedBiWeekly => 2
  | _ => 1

/-- Modelled from the spec: the frequency whose level annuity payment is the
basis of the per-payment amount.  For the accelerated variants this is the
monthly schedule (whose payment is then divided by `accelerationDivisor`);
for standard frequencies it is the frequency itself. -/
def paymentBasisFrequency : PaymentFrequency → ℕ
  | .acceleratedWeekly => 12
  | .acceleratedBiWeekly => 12
  | f => paymentsPerYear f

section Core

variable {α : Type} [LinearOrderedField α] [FloorRing α]

/-- Round `x` to `d` decimal places, half away from zero upward (JavaScript's
`Math.round` convention scaled by `10^d`). -/
def roundTo (d : ℕ) (x : α) : α := ((⌊x * 10 ^ d + 1 / 2⌋ : ℤ) : α) / 10 ^ d

/-- Modelled from the spec: premium-rate bands over the down-payment ratio,
with half-open upper bounds: `[0.05, 0.10) → 4 %`, `[0.10, 0.15) → 3.1 %`,
`[0.15, 0.20) → 2.8 %`, and `0` at or above 20 %.  (The region below 5 % is
rejected by `mortgageInsurancePremium` before this function matters.) -/
def premiumRate (ratio : α) : α :=
  if ratio < 10 / 100 then 4 / 100
  else if ratio < 15 / 100 then 31 / 1000
  else if ratio < 20 / 100 then 28 / 1000
  else 0

/-- Modelled from the spec: the insurance premium amount,
`round(premiumRate × (purchasePrice − downPayment))` to the nearest integer
(`0` for a down-payment ratio at or above 20 % since the band rate is `0`). -/
def premiumAmount (price down : α) : α :=
  roundTo 0 (premiumRate (down / price) * (price - down))

/-- Modelled from the spec: `mortgageInsurancePremium` fails with
`invalidInput` when the down-payment ratio is below 5 % and otherwise returns
the banded premium rounded to the nearest integer. -/
def mortgageInsurancePremium (price down : α) : Except FinanceError α :=
  if down / price < 5 / 100 then .error .invalidInput
  else .ok (premiumAmount price down)

/-- One row of the amortization schedule returned by `mortgagePayments`. -/
structure PaymentRow (α : Type) where
  id : Option String
  paymentId : ℕ
  payment : α
  interest : α
  capital : α
  balance : α
  amountPaid : α
  interestPaid : α
  capitalPaid : α

/-- Internal unrounded accumulators of the scheduler: remaining balance and the
three running totals. -/
structure SchedAccum (α : Type) where
  balance : α
  amountPaid : α
  interestPaid : α
  capitalPaid : α

/-- Modelled from the spec: one period of iterative balance reduction —
`interest = balance × r`, `capital = payment − interest`,
`balance -= capital`, running totals accumulated unrounded. -/
def schedStep (r P : α) (s : SchedAccum α) : SchedAccum α :=
  { balance := s.balance - (P - s.balance * r)
    amountPaid := s.amountPaid + P
    interestPaid := s.interestPaid + s.balance * r
    capitalPaid := s.capitalPaid + (P - s.balance * r) }

/-- The scheduler's internal state after `k` payments, starting from balance
`B` with periodic rate `r` and fixed payment `P`. -/
def schedAccum (B r P : α) : ℕ → SchedAccum α
  | 0 => ⟨B, 0, 0, 0⟩
  | k + 1 => schedStep r P (schedAccum B r P k)

/-- Remaining balance after `k` payments. -/
def balanceAfter (B r P : α) (k : ℕ) : α := (schedAccum B r P k).balance

/-- Modelled from the spec: the emitted schedule row for payment index `k`
(0-based); all monetary outputs rounded to `d` decimals only at emission time,
from the unrounded accumulators. -/
def emitRow (idOpt : Option String) (d : ℕ) (B r P : α) (k : ℕ) : PaymentRow α :=
  { id := idOpt
    paymentId := k
    payment := roundTo d P
    interest := roundTo d ((schedAccum B r P k).balance * r)
    capital := roundTo d (P - (schedAccum B r P k).balance * r)
    balance := roundTo d (schedAccum B r P (k + 1)).balance
    amountPaid := roundTo d (schedAccum B r P (k + 1)).amountPaid
    interestPaid := roundTo d (schedAccum B r P (k + 1)).interestPaid
    capitalPaid := roundTo d (schedAccum B r P (k + 1)).capitalPaid }

/-- The full emitted schedule: `N` rows generated by iterative balance
reduction. -/
def scheduleRows (idOpt : Option String) (d : ℕ) (B r P : α) (N : ℕ) :
    List (PaymentRow α) :=
  (List.range N).map (emitRow idOpt d B r P)

/-- Modelled from the spec: the standard level payment by the annuity formula
`payment = balance × r / (1 − (1 + r)^−n)`. -/
def annuityPayment (B r : α) (n : ℕ) : α := B * r / (1 - ((1 + r) ^ n)⁻¹)

/-- Modelled from the spec: `1` plus the effective annual rate of a nominal
annual rate compounded `m` times a year, `(1 + nominal/m)^m`. -/
def effectiveAnnualFactor (nominal : α) (m : ℕ) : α := (1 + nominal / (m : α)) ^ m

end Core

/-- Modelled from the spec (RateConverter): the per-payment periodic rate,
obtained by first forming the effective annual rate
`(1 + nominal/m)^m − 1` and then taking the `ppy`-th root:
`(1 + effectiveAnnual)^(1/ppy) − 1`. -/
noncomputable def periodicRate (nominal : ℝ) (m ppy : ℕ) : ℝ :=
  effectiveAnnualFactor nominal m ^ ((1 : ℝ) / ppy) - 1

/-- Options accepted by `mortgagePayments`; absent fields take the documented
defaults at resolution time. -/
structure MortgageOptions where
  id : Option String := none
  decimals : Option ℕ := none
  annualCompounding : Option ℕ := none

/-- The number of decimals used for rounding: `decimals`, defaulting to 2. -/
def resolvedDecimals (o : MortgageOptions) : ℕ := o.decimals.getD 2

/-- The compounding periods per year: `annualCompounding`, defaulting to 2
(semi-annual compounding, the Canadian statutory convention). -/
def resolvedCompounding (o : MortgageOptions) : ℕ := o.annualCompounding.getD 2

/-- Modelled from the spec: the fixed per-payment amount.  Standard frequencies
use the annuity payment at their own cadence over the full amortization; the
accelerated variants use the monthly annuity payment over the full amortization
divided by 4 (weekly cadence) resp. 2 (bi-weekly cadence). -/
noncomputable def perPaymentAmount (amount nominal : ℝ) (m : ℕ)
    (freq : PaymentFrequency) (amort : ℕ) : ℝ :=
  annuityPayment amount (periodicRate nominal m (paymentBasisFrequency freq))
      (paymentBasisFrequency freq * amort) / (accelerationDivisor freq : ℝ)

/-- Modelled from the spec: `mortgagePayments`.  Fails with
`invalidConfiguration` when the amortization period is shorter than the term;
otherwise emits `paymentsPerYear × term` rows of iterative balance reduction at
the periodic rate derived from `rate` (a percentage) under the resolved
compounding convention. -/
noncomputable def mortgagePayments (amount rate : ℝ) (freq : PaymentFrequency)
    (term amort : ℕ) (opts : MortgageOptions) :
    Except FinanceError (List (PaymentRow ℝ)) :=
  if amort < term then .error .invalidConfiguration
  else
    .ok (scheduleRows opts.id (resolvedDecimals opts) amount
      (periodicRate (rate / 100) (resolvedCompounding opts) (paymentsPerYear freq))
      (perPaymentAmount amount (rate / 100) (resolvedCompounding opts) freq amort)
      (paymentsPerYear freq * term))

/-- The rows of a `mortgagePayments` result, or `[]` on error. -/
def rowsOf (e : Except FinanceError (List (PaymentRow ℝ))) : List (PaymentRow ℝ) :=
  e.toOption.getD []

/-- Options accepted by `mortgageMaxAmount`; absent fields take the documented
defaults (debt 0, heating 175, condo fees 0, tax 1.5 % of the candidate price
per year divided by 12). -/
structure MortgageMaxOptions where
  monthlyDebtPayment : Option ℝ := none
  monthlyHeating : Option ℝ := none
  monthlyTax : Option ℝ := none
  monthlyCondoFees : Option ℝ := none

/-- The result record of `mortgageMaxAmount`. -/
structure AffordabilityResult where
  annualIncome : ℝ
  downPayment : ℝ
  rate : ℝ
  rateTested : ℝ
  purchasePrice : ℝ
  mortgageAmount : ℝ
  insurancePremium : ℝ
  monthlyMortgagePayment : ℝ
  grossDebtServiceRatio : ℝ
  totalDebtServiceRatio : ℝ
  reason : String
  monthlyDebtPayment : ℝ
  monthlyHeating : ℝ
  isHeatingEstimate : Bool
  monthlyTax : ℝ
  isTaxEstimate : Bool
  monthlyCondoFees : ℝ

/-- Modelled from the spec: the regulatory stress-test rate, the higher of the
contract rate plus 2 percentage points and the 5.25 % benchmark. -/
noncomputable def stressRate (rate : ℝ) : ℝ := max (rate + 2) (525 / 100)

/-- Modelled from the spec: the gross-debt-service cap used by the search.
The spec text quotes the caps 0.39/0.44, but the repository's documented
example (`mortgageMaxAmount(100000, 25000, 5.25)` stopping at purchase price
307000 with a reported GDS of 0.32 and reason "debt limit") is only consistent
with the classic qualification caps GDS ≤ 0.32 and TDS ≤ 0.40, which are used
here. -/
noncomputable def gdsCap : ℝ := 32 / 100

/-- Modelled from the spec: the total-debt-service cap used by the search (see
`gdsCap`). -/
noncomputable def tdsCap : ℝ := 40 / 100

/-- Modelled from the spec: the minimum insurable down-payment ratio, 5 %. -/
noncomputable def minDownRatio : ℝ := 5 / 100

/-- The resolved inputs of one affordability search: income, down payment, the
resolved monthly debt/heating/condo amounts, the optional caller-supplied tax,
and the stress-tested monthly periodic rate. -/
structure AffordCtx where
  income : ℝ
  down : ℝ
  debt : ℝ
  heating : ℝ
  condo : ℝ
  taxOpt : Option ℝ
  rho : ℝ

/-- Modelled from the spec: the default monthly property-tax estimate, 1.5 % of
the candidate purchase price annually, divided by 12. -/
noncomputable def monthlyTaxEstimate (c : ℝ) : ℝ := 15 / 1000 * c / 12

/-- The monthly tax used for candidate price `c`: the caller's value or the
estimate derived from `c`. -/
noncomputable def monthlyTaxAt (ctx : AffordCtx) (c : ℝ) : ℝ :=
  ctx.taxOpt.getD (monthlyTaxEstimate c)

/-- Modelled from the spec: mortgage amount at candidate purchase price `c`,
`c − downPayment + insurancePremium(c, downPayment)`. -/
noncomputable def mortgageAmountAt (down c : ℝ) : ℝ := c - down + premiumAmount c down

/-- The stress-tested monthly mortgage payment at candidate `c`: the level
annuity payment on the mortgage amount over 25 years (300 months) at the
stress-tested monthly rate. -/
noncomputable def monthlyPaymentAt (ctx : AffordCtx) (c : ℝ) : ℝ :=
  annuityPayment (mortgageAmountAt ctx.down c) ctx.rho 300

/-- Total monthly housing cost at candidate `c`: mortgage payment plus heating,
tax and condo fees. -/
noncomputable def housingCostAt (ctx : AffordCtx) (c : ℝ) : ℝ :=
  monthlyPaymentAt ctx c + ctx.heating + monthlyTaxAt ctx c + ctx.condo

/-- Gross debt service ratio at candidate `c`: housing cost over monthly
income. -/
noncomputable def gdsAt (ctx : AffordCtx) (c : ℝ) : ℝ :=
  housingCostAt ctx c / (ctx.income / 12)

/-- Total debt service ratio at candidate `c`: GDS plus other monthly debt over
monthly income. -/
noncomputable def tdsAt (ctx : AffordCtx) (c : ℝ) : ℝ :=
  gdsAt ctx c + ctx.debt / (ctx.income / 12)

/-- The candidate purchase price of grid index `j` (a stable increment of
1000). -/
noncomputable def candidatePrice (j : ℕ) : ℝ := 1000 * (j : ℝ)

/-- Whether the debt-service caps hold at grid index `j`. -/
noncomputable def affordCapsOK (ctx : AffordCtx) (j : ℕ) : Bool :=
  decide (gdsAt ctx (candidatePrice j) ≤ gdsCap) &&
    decide (tdsAt ctx (candidatePrice j) ≤ tdsCap)

/-- Modelled from the spec: feasibility of grid index `j` — the down-payment
ratio is at least 5 % and both debt-service caps hold. -/
noncomputable def affordFeasible (ctx : AffordCtx) (j : ℕ) : Bool :=
  decide (minDownRatio ≤ ctx.down / candidatePrice j) && affordCapsOK ctx j

/-- Modelled from the spec: bounded incremental search — the largest grid index
`j ≤ K` with `f j`, scanning downward (`0` when no index qualifies). -/
def searchBest (f : ℕ → Bool) : ℕ → ℕ
  | 0 => 0
  | k + 1 => if f (k + 1) then k + 1 else searchBest f k

/-- Modelled from the spec: the sane upper bound of the price search, ten times
the annual income, in grid units of 1000. -/
noncomputable def searchCeiling (income : ℝ) : ℕ := (⌊income / 100⌋).toNat

/-- Modelled from the spec: the binding-constraint tag — "max purchase price"
when the search ceiling itself qualified, otherwise "debt limit" when the
debt-service caps fail at the next candidate and "downPayment limit" when only
the 5 % down-payment floor fails there. -/
noncomputable def affordReason (ctx : AffordCtx) (K best : ℕ) : String :=
  if best = K then "max purchase price"
  else if affordCapsOK ctx (best + 1) then "downPayment limit"
  else "debt limit"

/-- The resolved search context of a `mortgageMaxAmount` call: defaults
applied, stress-tested monthly periodic rate under semi-annual compounding. -/
noncomputable def affordCtxOf (income down rate : ℝ) (opts : MortgageMaxOptions) :
    AffordCtx :=
  ⟨income, down, opts.monthlyDebtPayment.getD 0, opts.monthlyHeating.getD 175,
    opts.monthlyCondoFees.getD 0, opts.monthlyTax,
    periodicRate (stressRate rate / 100) 2 12⟩

/-- The grid index of the best feasible candidate purchase price. -/
noncomputable def affordBest (income down rate : ℝ) (opts : MortgageMaxOptions) : ℕ :=
  searchBest (affordFeasible (affordCtxOf income down rate opts))
    (searchCeiling income)

/-- Modelled from the spec: `mortgageMaxAmount`.  Fails with `invalidInput` on
non-positive income; otherwise searches candidate purchase prices in increments
of 1000 under the stress-tested rate and returns the full result record for the
best feasible candidate. -/
noncomputable def mortgageMaxAmount (income down rate : ℝ)
    (opts : MortgageMaxOptions) : Except FinanceError AffordabilityResult :=
  if income ≤ 0 then .error .invalidInput
  else
    .ok
      { annualIncome := income
        downPayment := down
        rate := rate
        rateTested := stressRate rate
        purchasePrice := candidatePrice (affordBest income down rate opts)
        mortgageAmount := mortgageAmountAt down
          (candidatePrice (affordBest income down rate opts))
        insurancePremium := premiumAmount
          (candidatePrice (affordBest income down rate opts)) down
        monthlyMortgagePayment := roundTo 2 (monthlyPaymentAt
          (affordCtxOf income down rate opts)
          (candidatePrice (affordBest income down rate opts)))
        grossDebtServiceRatio := roundTo 2 (gdsAt (affordCtxOf income down rate opts)
          (candidatePrice (affordBest income down rate opts)))
        totalDebtServiceRatio := roundTo 2 (tdsAt (affordCtxOf income down rate opts)
          (candidatePrice (affordBest income down rate opts)))
        reason := affordReason (affordCtxOf income down rate opts)
          (searchCeiling income) (affordBest income down rate opts)
        monthlyDebtPayment := (affordCtxOf income down rate opts).debt
        monthlyHeating := (affordCtxOf income down rate opts).heating
        isHeatingEstimate := opts.monthlyHeating.isNone
        monthlyTax := monthlyTaxAt (affordCtxOf income down rate opts)
          (candidatePrice (affordBest income down rate opts))
        isTaxEstimate := opts.monthlyTax.isNone
        monthlyCondoFees := (affordCtxOf income down rate opts).condo }

/-- A placeholder affordability record (used only to read `ok` results off an
`Except` totally). -/
noncomputable def emptyAffordabilityResult : AffordabilityResult :=
  ⟨0, 0, 0, 0, 0, 0, 0, 0, 0, 0, "", 0, 0, false, 0, false, 0⟩

/-- The result record of a `mortgageMaxAmount` call, or the placeholder on
error. -/
noncomputable def affordResult (income down rate : ℝ) (opts : MortgageMaxOptions) :
    AffordabilityResult :=
  (mortgageMaxAmount income down rate opts).toOption.getD emptyAffordabilityResult

/-- The named exports of the package's main entry module, in source order
(from `src/index.ts`). -/
def mainModuleExports : List String :=
  ["adjustToInflation", "getYahooFinanceData", "mortgageInsurancePremium",
    "mortgageMaxAmount", "mortgagePayments"]

/-- The named exports of the package's web entry module, in source order
(from the web variant of `src/index.ts`). -/
def webModuleExports : List String :=
  ["adjustToInflation", "mortgageInsurancePremium", "mortgageMaxAmount",
    "mortgagePayments"]

/-- `f`-monotonicity (non-decreasing) across a row list, by indices. -/
def ListMonoBy {α : Type} (f : PaymentRow α → α) [LE α] (rows : List (PaymentRow α)) : Prop :=
  ∀ i j (hi : i < rows.length) (hj : j < rows.length),
    i ≤ j → f (rows.get ⟨i, hi⟩) ≤ f (rows.get ⟨j, hj⟩)

/-- Row-local consistency and cumulative invariants of an emitted schedule of
`N` rows at `d` decimals for principal `amount`: correct row count,
`interest + capital = payment` within three rounding half-units, non-decreasing
cumulative amount and capital paid, and the capital portions plus the final
balance recovering the principal within `N + 1` rounding half-units. -/
def c1CoreInvariants (amount : ℝ) (d N : ℕ) (rows : List (PaymentRow ℝ)) : Prop :=
  rows.length = N ∧
  (∀ r ∈ rows, |r.interest + r.capital - r.payment| ≤ 3 / (2 * 10 ^ d)) ∧
  ListMonoBy (fun r => r.amountPaid) rows ∧
  ListMonoBy (fun r => r.capitalPaid) rows ∧
  |(rows.map (fun r => r.capital)).sum +
      (rows.getLast?.elim amount (fun r => r.balance)) - amount| ≤
    (N + 1) / (2 * 10 ^ d)

/-- The full invariant asserted by the specification for one `mortgagePayments`
call: the core invariants plus monotone cumulative interest. -/
def c1Property (amount rate : ℝ) (freq : PaymentFrequency) (term amort : ℕ)
    (opts : MortgageOptions) : Prop :=
  c1CoreInvariants amount (resolvedDecimals opts) (paymentsPerYear freq * term)
      (rowsOf (mortgagePayments amount rate freq term amort opts)) ∧
  ListMonoBy (fun r => r.interestPaid)
    (rowsOf (mortgagePayments amount rate freq term amort opts))

/-- Weekly growth factor of the counterexample rate, chosen so that every
periodic rate is rational. -/
noncomputable def vr : ℝ := 1001 / 1000

/-- The counterexample's nominal percentage rate: the rate whose semi-annual
factor is `vr ^ 78`, about 16.2 %. -/
noncomputable def accRate : ℝ := 200 * (vr ^ 78 - 1)

/-- The counterexample's fixed accelerated-weekly payment (a quarter of the
one-year monthly payment on 1000). -/
noncomputable def payAcc : ℝ := annuityPayment 1000 (vr ^ 13 - 1) 12 / 4

/-- A placeholder row (used only to read rows off a list totally). -/
noncomputable def emptyRow : PaymentRow ℝ := ⟨none, 0, 0, 0, 0, 0, 0, 0, 0⟩

/-- The `k`-th row of a `mortgagePayments` result (the placeholder when out of
range or on error). -/
noncomputable def rowAt (e : Except FinanceError (List (PaymentRow ℝ))) (k : ℕ) :
    PaymentRow ℝ :=
  (rowsOf e).getD k emptyRow

/-- The monthly periodic rate of the documented example: 6 % nominal,
semi-annual compounding. -/
noncomputable def rho6 : ℝ := periodicRate (6 / 100) 2 12

/-- The level monthly payment of the documented example: 250 000 over
25 years. -/
noncomputable def pay6 : ℝ := annuityPayment 250000 rho6 300

/-- Rational lower bracket of `1 + rho6`. -/
noncomputable def q6lo : ℝ := 1004938622031 / 1000000000000

/-- Rational upper bracket of `1 + rho6`. -/
noncomputable def q6hi : ℝ := 1004938622032 / 1000000000000

/-- The search context of the documented affordability example. -/
noncomputable def exCtx : AffordCtx := affordCtxOf 100000 25000 (5.25 : ℝ) {}

/-- Rational lower bracket of the stress-tested monthly growth factor. -/
noncomputable def r7lo : ℝ := 1005952383358 / 1000000000000

/-- Rational upper bracket of the stress-tested monthly growth factor. -/
noncomputable def r7hi : ℝ := 1005952383359 / 1000000000000

/-- The feasibility conditions asserted by the claim on a returned
affordability result: debt-service caps, minimum down-payment ratio, and the
mortgage-amount identity through the insurance premium. -/
def c6Feasibility (income down rate : ℝ) (opts : MortgageMaxOptions) : Prop :=
  (affordResult income down rate opts).grossDebtServiceRatio ≤ 39 / 100 ∧
  (affordResult income down rate opts).totalDebtServiceRatio ≤ 44 / 100 ∧
  5 / 100 ≤ down / (affordResult income down rate opts).purchasePrice ∧
  mortgageInsurancePremium (affordResult income down rate opts).purchasePrice down =
    .ok (affordResult income down rate opts).insurancePremium ∧
  (affordResult income down rate opts).mortgageAmount =
    (affordResult income down rate opts).purchasePrice - down +
      (affordResult income down rate opts).insurancePremium

section RoundLemmas

variable {α : Type} [LinearOrderedField α] [FloorRing α]

lemma roundTo_le_add (d : ℕ) (x : α) : roundTo d x ≤ x + 1 / (2 * 10 ^ d) := by
  unfold roundTo
  rw [div_le_iff₀ (by positivity)]
  calc ((⌊x * 10 ^ d + 1 / 2⌋ : ℤ) : α) ≤ x * 10 ^ d + 1 / 2 := Int.floor_le _
    _ = (x + 1 / (2 * 10 ^ d)) * 10 ^ d := by field_simp; ring

lemma sub_le_roundTo (d : ℕ) (x : α) : x - 1 / (2 * 10 ^ d) ≤ roundTo d x := by
  unfold roundTo
  rw [le_div_iff₀ (by positivity)]
  have h := Int.sub_one_lt_floor (x * 10 ^ d + 1 / 2)
  have h' : x * 10 ^ d + 1 / 2 - 1 ≤ ((⌊x * 10 ^ d + 1 / 2⌋ : ℤ) : α) := le_of_lt h
  calc (x - 1 / (2 * 10 ^ d)) * 10 ^ d = x * 10 ^ d + 1 / 2 - 1 := by field_simp; ring
    _ ≤ _ := h'

lemma abs_roundTo_sub_le (d : ℕ) (x : α) : |roundTo d x - x| ≤ 1 / (2 * 10 ^ d) := by
  rw [abs_sub_le_iff]
  constructor
  · have := roundTo_le_add d x
    linarith
  · have := sub_le_roundTo d x
    linarith

lemma roundTo_mono (d : ℕ) {x y : α} (h : x ≤ y) : roundTo d x ≤ roundTo d y := by
  unfold roundTo
  have hx : x * 10 ^ d + 1 / 2 ≤ y * 10 ^ d + 1 / 2 := by
    have : x * 10 ^ d ≤ y * 10 ^ d := by
      exact mul_le_mul_of_nonneg_right h (by positivity)
    linarith
  have := Int.floor_mono hx
  have hcast : ((⌊x * 10 ^ d + 1 / 2⌋ : ℤ) : α) ≤ ((⌊y * 10 ^ d + 1 / 2⌋ : ℤ) : α) := by
    exact_mod_cast this
  exact (div_le_div_iff_of_pos_right (by positivity)).mpr hcast

lemma roundTo_eq_of_mem (d : ℕ) (x : α) (n : ℤ)
    (h1 : (n : α) ≤ x * 10 ^ d + 1 / 2) (h2 : x * 10 ^ d + 1 / 2 < n + 1) :
    roundTo d x = (n : α) / 10 ^ d := by
  unfold roundTo
  congr 2
  exact Int.floor_eq_iff.mpr ⟨h1, h2⟩

end RoundLemmas

section AccumLemmas

variable {α : Type} [LinearOrderedField α]

lemma balanceAfter_zero (B r P : α) : balanceAfter B r P 0 = B := rfl

lemma balanceAfter_succ (B r P : α) (k : ℕ) :
    balanceAfter B r P (k + 1) = balanceAfter B r P k * (1 + r) - P := by
  unfold balanceAfter
  show (schedStep r P (schedAccum B r P k)).balance = _
  show (schedAccum B r P k).balance - (P - (schedAccum B r P k).balance * r) = _
  ring

lemma schedAccum_amountPaid (B r P : α) (k : ℕ) :
    (schedAccum B r P k).amountPaid = k * P := by
  induction k with
  | zero => simp [schedAccum]
  | succ n ih =>
      show (schedStep r P (schedAccum B r P n)).amountPaid = _
      unfold schedStep
      simp only [ih]
      push_cast
      ring

lemma schedAccum_capitalPaid (B r P : α) (k : ℕ) :
    (schedAccum B r P k).capitalPaid = B - (schedAccum B r P k).balance := by
  induction k with
  | zero => simp [schedAccum]
  | succ n ih =>
      show (schedStep r P (schedAccum B r P n)).capitalPaid =
        B - (schedStep r P (schedAccum B r P n)).balance
      unfold schedStep
      simp only [ih]
      ring

lemma schedAccum_interestPaid (B r P : α) (k : ℕ) :
    (schedAccum B r P k).interestPaid =
      (schedAccum B r P k).amountPaid - (schedAccum B r P k).capitalPaid := by
  induction k with
  | zero => simp [schedAccum]
  | succ n ih =>
      show (schedStep r P (schedAccum B r P n)).interestPaid =
        (schedStep r P (schedAccum B r P n)).amountPaid -
          (schedStep r P (schedAccum B r P n)).capitalPaid
      unfold schedStep
      simp only [ih]
      ring

/-- Closed form of the running balance for a nonzero periodic rate. -/
lemma balanceAfter_closed (B P : α) {r : α} (hr : r ≠ 0) (k : ℕ) :
    balanceAfter B r P k = (1 + r) ^ k * B - P * ((1 + r) ^ k - 1) / r := by
  induction k with
  | zero => simp [balanceAfter_zero]
  | succ n ih =>
      rw [balanceAfter_succ, ih]
      field_simp
      ring

/-- If each payment is at least the running interest charge forever below the
cap `P / r`, the balance stays below that cap. -/
lemma balanceAfter_le_cap {B P r : α} (hr : 0 < r) (hB : B * r ≤ P) (k : ℕ) :
    balanceAfter B r P k * r ≤ P := by
  induction k with
  | zero => simpa [balanceAfter_zero] using hB
  | succ n ih =>
      rw [balanceAfter_succ]
      have h1 : balanceAfter B r P n * (1 + r) * r ≤ P * (1 + r) := by
        have := mul_le_mul_of_nonneg_right ih (le_of_lt (by linarith : (0 : α) < 1 + r))
        calc balanceAfter B r P n * (1 + r) * r = balanceAfter B r P n * r * (1 + r) := by ring
          _ ≤ P * (1 + r) := this
      nlinarith

end AccumLemmas

section SearchLemmas

lemma searchBest_eq {f : ℕ → Bool} {m : ℕ} :
    ∀ {K : ℕ}, m ≤ K → (m = 0 ∨ f m = true) →
      (∀ j, m < j → j ≤ K → f j = false) → searchBest f K = m := by
  intro K
  induction K with
  | zero =>
      intro h _ _
      have hm0 : m = 0 := by omega
      subst hm0
      rfl
  | succ n ih =>
      intro hm hfm habove
      rcases Nat.lt_or_ge m (n + 1) with h | h
      · have hfalse : f (n + 1) = false := habove (n + 1) h (le_refl _)
        show searchBest f (n + 1) = m
        unfold searchBest
        rw [hfalse]
        simp only [Bool.false_eq_true, if_false]
        exact ih (by omega) hfm (fun j hj hj' => habove j hj (by omega))
      · have hm' : m = n + 1 := by omega
        subst hm'
        rcases hfm with h0 | htrue
        · omega
        · show searchBest f (n + 1) = n + 1
          unfold searchBest
          rw [htrue]
          simp

end SearchLemmas

section RootLemmas

lemma one_add_periodicRate (nominal : ℝ) (m ppy : ℕ) :
    1 + periodicRate nominal m ppy = effectiveAnnualFactor nominal m ^ ((1 : ℝ) / ppy) := by
  unfold periodicRate
  ring

lemma effectiveAnnualFactor_one_le {nominal : ℝ} (h : 0 ≤ nominal) (m : ℕ) :
    1 ≤ effectiveAnnualFactor nominal m := by
  unfold effectiveAnnualFactor
  calc (1 : ℝ) = 1 ^ m := (one_pow m).symm
    _ ≤ (1 + nominal / (m : ℝ)) ^ m := by
        refine pow_le_pow_left₀ (by norm_num) ?_ m
        have : 0 ≤ nominal / (m : ℝ) := by positivity
        linarith

lemma effectiveAnnualFactor_one_lt {nominal : ℝ} (h : 0 < nominal) {m : ℕ}
    (hm : m ≠ 0) : 1 < effectiveAnnualFactor nominal m := by
  unfold effectiveAnnualFactor
  refine one_lt_pow₀ ?_ hm
  have hm' : (0 : ℝ) < (m : ℝ) := by exact_mod_cast Nat.pos_of_ne_zero hm
  have : 0 < nominal / (m : ℝ) := div_pos h hm'
  linarith

lemma le_root_of_pow_le {a F : ℝ} {n : ℕ} (hn : n ≠ 0) (ha : 0 ≤ a)
    (h : a ^ n ≤ F) : a ≤ F ^ ((1 : ℝ) / n) := by
  have hna : ((n : ℝ)) ≠ 0 := by exact_mod_cast hn
  have key : (a ^ ((n : ℕ) : ℝ)) ^ ((1 : ℝ) / n) = a := by
    rw [← Real.rpow_mul ha]
    rw [mul_one_div, div_self hna, Real.rpow_one]
  calc a = (a ^ ((n : ℕ) : ℝ)) ^ ((1 : ℝ) / n) := key.symm
    _ ≤ F ^ ((1 : ℝ) / n) := by
        refine Real.rpow_le_rpow ?_ ?_ (by positivity)
        · positivity
        · rwa [Real.rpow_natCast]

lemma root_le_of_le_pow {a F : ℝ} {n : ℕ} (hn : n ≠ 0) (ha : 0 ≤ a) (hF : 0 ≤ F)
    (h : F ≤ a ^ n) : F ^ ((1 : ℝ) / n) ≤ a := by
  have hna : ((n : ℝ)) ≠ 0 := by exact_mod_cast hn
  have key : (a ^ ((n : ℕ) : ℝ)) ^ ((1 : ℝ) / n) = a := by
    rw [← Real.rpow_mul ha]
    rw [mul_one_div, div_self hna, Real.rpow_one]
  calc F ^ ((1 : ℝ) / n) ≤ (a ^ ((n : ℕ) : ℝ)) ^ ((1 : ℝ) / n) := by
        refine Real.rpow_le_rpow hF ?_ (by positivity)
        rwa [Real.rpow_natCast]
    _ = a := key

/-- Collapsing a finer root: the `n·t`-th root raised to the `t`-th power is the
`n`-th root. -/
lemma root_pow_collapse {F : ℝ} (hF : 0 ≤ F) {n t : ℕ} (hn : n ≠ 0) (ht : t ≠ 0) :
    (F ^ ((1 : ℝ) / (n * t : ℕ))) ^ t = F ^ ((1 : ℝ) / n) := by
  rw [← Real.rpow_natCast (F ^ ((1 : ℝ) / (n * t : ℕ))) t, ← Real.rpow_mul hF]
  congr 1
  have hn' : ((n : ℝ)) ≠ 0 := by exact_mod_cast hn
  have ht' : ((t : ℝ)) ≠ 0 := by exact_mod_cast ht
  push_cast
  field_simp
  ring

/-- The `n`-th root raised to the `n·a`-th power is the `a`-th power. -/
lemma root_pow_mul {F : ℝ} (hF : 0 ≤ F) {n : ℕ} (hn : n ≠ 0) (a : ℕ) :
    (F ^ ((1 : ℝ) / n)) ^ (n * a) = F ^ a := by
  rw [← Real.rpow_natCast (F ^ ((1 : ℝ) / n)) (n * a), ← Real.rpow_mul hF,
    ← Real.rpow_natCast F a]
  congr 1
  have hn' : ((n : ℝ)) ≠ 0 := by exact_mod_cast hn
  push_cast
  field_simp

lemma one_le_root {F : ℝ} (hF : 1 ≤ F) (n : ℕ) : 1 ≤ F ^ ((1 : ℝ) / n) :=
  Real.one_le_rpow hF (by positivity)

lemma one_lt_root {F : ℝ} (hF : 1 < F) {n : ℕ} (hn : n ≠ 0) :
    1 < F ^ ((1 : ℝ) / n) := by
  refine Real.one_lt_rpow_iff_of_pos (by linarith) |>.mpr ?_
  refine Or.inl ⟨hF, ?_⟩
  have : (0 : ℝ) < (n : ℝ) := by exact_mod_cast Nat.pos_of_ne_zero hn
  positivity

end RootLemmas

section PolyLemmas

lemma pow13_four_pow3 {w : ℝ} (hw : 1 ≤ w) : 4 * (w ^ 3 - 1) ≤ w ^ 13 - 1 := by
  have hfac : w ^ 13 - 1 - 4 * (w ^ 3 - 1) =
      (w - 1) * (w ^ 12 + w ^ 11 + w ^ 10 + w ^ 9 + w ^ 8 + w ^ 7 + w ^ 6 + w ^ 5 +
        w ^ 4 + w ^ 3 - 3 * w ^ 2 - 3 * w - 3) := by
    ring
  have hw2 : w ≤ w ^ 2 := by nlinarith
  have h1 : (1 : ℝ) ≤ w ^ 2 := by nlinarith
  have hpows : ∀ i : ℕ, 2 ≤ i → w ^ 2 ≤ w ^ i := fun i hi => pow_le_pow_right₀ hw hi
  have h3 := hpows 3 (by norm_num)
  have h4 := hpows 4 (by norm_num)
  have h5 := hpows 5 (by norm_num)
  have h6 := hpows 6 (by norm_num)
  have h7 := hpows 7 (by norm_num)
  have h8 := hpows 8 (by norm_num)
  have h9 := hpows 9 (by norm_num)
  have h10 := hpows 10 (by norm_num)
  have h11 := hpows 11 (by norm_num)
  have h12 := hpows 12 (by norm_num)
  have hQ : (1 : ℝ) ≤ w ^ 12 + w ^ 11 + w ^ 10 + w ^ 9 + w ^ 8 + w ^ 7 + w ^ 6 + w ^ 5 +
      w ^ 4 + w ^ 3 - 3 * w ^ 2 - 3 * w - 3 := by linarith
  nlinarith [mul_nonneg (by linarith : (0 : ℝ) ≤ w - 1) (by linarith : (0 : ℝ) ≤
    w ^ 12 + w ^ 11 + w ^ 10 + w ^ 9 + w ^ 8 + w ^ 7 + w ^ 6 + w ^ 5 + w ^ 4 + w ^ 3 -
      3 * w ^ 2 - 3 * w - 3)]

lemma pow13_four_pow3_strict {w : ℝ} (hw : 1 < w) : 4 * (w ^ 3 - 1) < w ^ 13 - 1 := by
  have hw' : 1 ≤ w := le_of_lt hw
  have hfac : w ^ 13 - 1 - 4 * (w ^ 3 - 1) =
      (w - 1) * (w ^ 12 + w ^ 11 + w ^ 10 + w ^ 9 + w ^ 8 + w ^ 7 + w ^ 6 + w ^ 5 +
        w ^ 4 + w ^ 3 - 3 * w ^ 2 - 3 * w - 3) := by
    ring
  have hw2 : w ≤ w ^ 2 := by nlinarith
  have h1 : (1 : ℝ) ≤ w ^ 2 := by nlinarith
  have hpows : ∀ i : ℕ, 2 ≤ i → w ^ 2 ≤ w ^ i := fun i hi => pow_le_pow_right₀ hw' hi
  have h3 := hpows 3 (by norm_num)
  have h4 := hpows 4 (by norm_num)
  have h5 := hpows 5 (by norm_num)
  have h6 := hpows 6 (by norm_num)
  have h7 := hpows 7 (by norm_num)
  have h8 := hpows 8 (by norm_num)
  have h9 := hpows 9 (by norm_num)
  have h10 := hpows 10 (by norm_num)
  have h11 := hpows 11 (by norm_num)
  have h12 := hpows 12 (by norm_num)
  have hQ : (1 : ℝ) ≤ w ^ 12 + w ^ 11 + w ^ 10 + w ^ 9 + w ^ 8 + w ^ 7 + w ^ 6 + w ^ 5 +
      w ^ 4 + w ^ 3 - 3 * w ^ 2 - 3 * w - 3 := by linarith
  nlinarith [mul_pos (by linarith : (0 : ℝ) < w - 1) (by linarith : (0 : ℝ) <
    w ^ 12 + w ^ 11 + w ^ 10 + w ^ 9 + w ^ 8 + w ^ 7 + w ^ 6 + w ^ 5 + w ^ 4 + w ^ 3 -
      3 * w ^ 2 - 3 * w - 3)]

lemma pow13_two_pow6 {w : ℝ} (hw : 1 ≤ w) : 2 * (w ^ 6 - 1) ≤ w ^ 13 - 1 := by
  have hfac : w ^ 13 - 1 - 2 * (w ^ 6 - 1) =
      (w - 1) * (w ^ 12 + w ^ 11 + w ^ 10 + w ^ 9 + w ^ 8 + w ^ 7 + w ^ 6 - w ^ 5 -
        w ^ 4 - w ^ 3 - w ^ 2 - w - 1) := by
    ring
  have h1 : (1 : ℝ) ≤ w ^ 6 := one_le_pow₀ hw
  have hp : ∀ i : ℕ, w ^ i ≤ w ^ (i + 7) := fun i =>
    pow_le_pow_right₀ hw (by omega)
  have e0 := hp 0
  have e1 := hp 1
  have e2 := hp 2
  have e3 := hp 3
  have e4 := hp 4
  have e5 := hp 5
  have hQ : (1 : ℝ) ≤ w ^ 12 + w ^ 11 + w ^ 10 + w ^ 9 + w ^ 8 + w ^ 7 + w ^ 6 - w ^ 5 -
      w ^ 4 - w ^ 3 - w ^ 2 - w - 1 := by
    norm_num at e0 e1 e2 e3 e4 e5
    linarith
  nlinarith [mul_nonneg (by linarith : (0 : ℝ) ≤ w - 1) (by linarith : (0 : ℝ) ≤
    w ^ 12 + w ^ 11 + w ^ 10 + w ^ 9 + w ^ 8 + w ^ 7 + w ^ 6 - w ^ 5 - w ^ 4 - w ^ 3 -
      w ^ 2 - w - 1)]

lemma pow13_two_pow6_strict {w : ℝ} (hw : 1 < w) : 2 * (w ^ 6 - 1) < w ^ 13 - 1 := by
  have hw' : 1 ≤ w := le_of_lt hw
  have hfac : w ^ 13 - 1 - 2 * (w ^ 6 - 1) =
      (w - 1) * (w ^ 12 + w ^ 11 + w ^ 10 + w ^ 9 + w ^ 8 + w ^ 7 + w ^ 6 - w ^ 5 -
        w ^ 4 - w ^ 3 - w ^ 2 - w - 1) := by
    ring
  have h1 : (1 : ℝ) ≤ w ^ 6 := one_le_pow₀ hw'
  have hp : ∀ i : ℕ, w ^ i ≤ w ^ (i + 7) := fun i =>
    pow_le_pow_right₀ hw' (by omega)
  have e0 := hp 0
  have e1 := hp 1
  have e2 := hp 2
  have e3 := hp 3
  have e4 := hp 4
  have e5 := hp 5
  have hQ : (1 : ℝ) ≤ w ^ 12 + w ^ 11 + w ^ 10 + w ^ 9 + w ^ 8 + w ^ 7 + w ^ 6 - w ^ 5 -
      w ^ 4 - w ^ 3 - w ^ 2 - w - 1 := by
    norm_num at e0 e1 e2 e3 e4 e5
    linarith
  nlinarith [mul_pos (by linarith : (0 : ℝ) < w - 1) (by linarith : (0 : ℝ) <
    w ^ 12 + w ^ 11 + w ^ 10 + w ^ 9 + w ^ 8 + w ^ 7 + w ^ 6 - w ^ 5 - w ^ 4 - w ^ 3 -
      w ^ 2 - w - 1)]

end PolyLemmas

section AnnuityLemmas

lemma annuityPayment_zero_rate {α : Type} [LinearOrderedField α] (B : α) (n : ℕ) :
    annuityPayment B 0 n = 0 := by
  unfold annuityPayment
  simp

lemma annuityPayment_nonneg {B r : ℝ} (hB : 0 ≤ B) (hr : 0 ≤ r) (n : ℕ) :
    0 ≤ annuityPayment B r n := by
  rcases eq_or_lt_of_le hr with h | h
  · rw [← h, annuityPayment_zero_rate]
  · unfold annuityPayment
    rcases Nat.eq_zero_or_pos n with hn | hn
    · subst hn; simp
    · have hu : (1 : ℝ) < 1 + r := by linarith
      have hupow : (1 : ℝ) < (1 + r) ^ n := one_lt_pow₀ hu (by omega)
      have hinv : ((1 + r) ^ n)⁻¹ < 1 := inv_lt_one_of_one_lt₀ hupow
      have hD : 0 < 1 - ((1 + r) ^ n)⁻¹ := by linarith
      positivity

/-- The annuity payment covers the interest on the full principal. -/
lemma interest_le_annuityPayment {B r : ℝ} (hB : 0 ≤ B) (hr : 0 < r) {n : ℕ}
    (hn : n ≠ 0) : B * r ≤ annuityPayment B r n := by
  unfold annuityPayment
  have hu : (1 : ℝ) < 1 + r := by linarith
  have hupow : (1 : ℝ) < (1 + r) ^ n := one_lt_pow₀ hu hn
  have hinv0 : 0 < ((1 + r) ^ n)⁻¹ := by positivity
  have hinv : ((1 + r) ^ n)⁻¹ < 1 := inv_lt_one_of_one_lt₀ hupow
  have hD : 0 < 1 - ((1 + r) ^ n)⁻¹ := by linarith
  rw [le_div_iff₀ hD]
  have hBr : 0 ≤ B * r := mul_nonneg hB hr.le
  nlinarith

/-- Closed form of the annuity-schedule balance: after `k ≤ n` of the `n`
payments the balance is `B (u^n − u^k)/(u^n − 1)` with `u = 1 + r`. -/
lemma balanceAfter_annuity_eq {B r : ℝ} (hr : 0 < r) {n : ℕ} (hn : n ≠ 0) (k : ℕ) :
    balanceAfter B r (annuityPayment B r n) k =
      B * ((1 + r) ^ n - (1 + r) ^ k) / ((1 + r) ^ n - 1) := by
  have hu : (1 : ℝ) < 1 + r := by linarith
  have hu0 : (0 : ℝ) < 1 + r := by linarith
  have hupow : (1 : ℝ) < (1 + r) ^ n := one_lt_pow₀ hu hn
  have hA : (1 + r) ^ n - 1 ≠ 0 := by linarith
  have hA0 : ((1 + r) ^ n) ≠ 0 := by positivity
  have hrne : r ≠ 0 := ne_of_gt hr
  have hDne : 1 - ((1 + r) ^ n)⁻¹ ≠ 0 := by
    have hinv : ((1 + r) ^ n)⁻¹ < 1 := inv_lt_one_of_one_lt₀ hupow
    intro hc
    rw [sub_eq_zero] at hc
    rw [← hc] at hinv
    exact lt_irrefl _ hinv
  rw [balanceAfter_closed B _ (ne_of_gt hr) k]
  unfold annuityPayment
  field_simp
  ring

/-- The annuity-schedule balance stays nonnegative through the amortization. -/
lemma balanceAfter_annuity_nonneg {B r : ℝ} (hB : 0 ≤ B) (hr : 0 < r) {n k : ℕ}
    (hn : n ≠ 0) (hk : k ≤ n) :
    0 ≤ balanceAfter B r (annuityPayment B r n) k := by
  have hu : (1 : ℝ) < 1 + r := by linarith
  have hupow : (1 : ℝ) < (1 + r) ^ n := one_lt_pow₀ hu hn
  rw [balanceAfter_annuity_eq hr hn k]
  have hk' : (1 + r) ^ k ≤ (1 + r) ^ n := pow_le_pow_right₀ hu.le hk
  have h1 : 0 ≤ B * ((1 + r) ^ n - (1 + r) ^ k) := mul_nonneg hB (by linarith)
  have h2 : 0 < (1 + r) ^ n - 1 := by linarith
  positivity

/-- Lower and upper bounds of the annuity payment from rational brackets of the
growth factor `1 + r`. -/
lemma annuityPayment_bounds {M r lo hi : ℝ} (hM : 0 ≤ M) (hlo : 1 < lo)
    (h1 : lo ≤ 1 + r) (h2 : 1 + r ≤ hi) {n : ℕ} (hn : n ≠ 0) :
    M * (lo - 1) / (1 - (hi ^ n)⁻¹) ≤ annuityPayment M r n ∧
      annuityPayment M r n ≤ M * (hi - 1) / (1 - (lo ^ n)⁻¹) := by
  have hlo0 : (0 : ℝ) < lo := by linarith
  have hhi : (1 : ℝ) < hi := by linarith
  have hlopow : (1 : ℝ) < lo ^ n := one_lt_pow₀ hlo hn
  have hhipow : (1 : ℝ) < hi ^ n := one_lt_pow₀ hhi hn
  have hpow_lo : lo ^ n ≤ (1 + r) ^ n := pow_le_pow_left₀ hlo0.le h1 n
  have hpow_hi : (1 + r) ^ n ≤ hi ^ n := pow_le_pow_left₀ (by linarith) h2 n
  have hrpow : (1 : ℝ) < (1 + r) ^ n := lt_of_lt_of_le hlopow hpow_lo
  have hinv_lo : (hi ^ n)⁻¹ ≤ ((1 + r) ^ n)⁻¹ :=
    inv_anti₀ (by linarith) hpow_hi
  have hinv_hi : ((1 + r) ^ n)⁻¹ ≤ (lo ^ n)⁻¹ :=
    inv_anti₀ (by linarith) hpow_lo
  have hDlo : 0 < 1 - (lo ^ n)⁻¹ := by
    have : (lo ^ n)⁻¹ < 1 := inv_lt_one_of_one_lt₀ hlopow
    linarith
  have hD : 0 < 1 - ((1 + r) ^ n)⁻¹ := by
    have : ((1 + r) ^ n)⁻¹ < 1 := inv_lt_one_of_one_lt₀ hrpow
    linarith
  have hDhi : 0 < 1 - (hi ^ n)⁻¹ := by
    have : (hi ^ n)⁻¹ < 1 := inv_lt_one_of_one_lt₀ hhipow
    linarith
  have hnum_lo : M * (lo - 1) ≤ M * r := by
    have : lo - 1 ≤ r := by linarith
    exact mul_le_mul_of_nonneg_left this hM
  have hnum_hi : M * r ≤ M * (hi - 1) := by
    have : r ≤ hi - 1 := by linarith
    exact mul_le_mul_of_nonneg_left this hM
  unfold annuityPayment
  constructor
  · exact div_le_div₀ (by nlinarith) hnum_lo hD (by linarith)
  · exact div_le_div₀ (by nlinarith) hnum_hi hDlo (by linarith)

end AnnuityLemmas

/-- C10: the main entry module exports exactly `adjustToInflation`,
`getYahooFinanceData`, `mortgageInsurancePremium`, `mortgageMaxAmount` and
`mortgagePayments`, and the web entry module exports exactly the same set
minus `getYahooFinanceData`, so the network-fetching operation is absent from
the web surface. -/
theorem claim_C10 :
    mainModuleExports = ["adjustToInflation", "getYahooFinanceData",
      "mortgageInsurancePremium", "mortgageMaxAmount", "mortgagePayments"] ∧
    webModuleExports = mainModuleExports.filter (fun s => !(s == "getYahooFinanceData")) ∧
    "getYahooFinanceData" ∉ webModuleExports := by
  refine ⟨rfl, by decide, by decide⟩

/-- C9: `mortgagePayments` fails with `invalidConfiguration` exactly when the
amortization period is shorter than the term, for all values of the other
arguments. -/
theorem claim_C9 (amount rate : ℝ) (freq : PaymentFrequency) (term amort : ℕ)
    (opts : MortgageOptions) :
    mortgagePayments amount rate freq term amort opts =
      .error .invalidConfiguration ↔ amort < term := by
  unfold mortgagePayments
  split_ifs with h
  · simp [h]
  · simp [h]

/-- Witness for C9 at the documented failing example: term 10, amortization 5. -/
theorem claim_C9_witness :
    mortgagePayments 200000 5 .monthly 10 5 {} = .error .invalidConfiguration :=
  (claim_C9 200000 5 .monthly 10 5 {}).mpr (by norm_num)

/-- C8: `mortgageInsurancePremium` raises `invalidInput` exactly when the
down-payment ratio is below 5 %, and raises no error for every ratio at or
above 5 %. -/
theorem claim_C8 (price down : ℝ) :
    (mortgageInsurancePremium price down = .error .invalidInput ↔
      down / price < 5 / 100) ∧
    (5 / 100 ≤ down / price →
      mortgageInsurancePremium price down = .ok (premiumAmount price down)) := by
  constructor
  · unfold mortgageInsurancePremium
    split_ifs with h'
    · simp [h']
    · simp [h']
  · intro h
    unfold mortgageInsurancePremium
    rw [if_neg (not_lt.mpr h)]

/-- Witness for C8: the documented 4 % down payment raises the error; a 5 %
down payment does not. -/
theorem claim_C8_witness :
    mortgageInsurancePremium (500000 : ℝ) 20000 = .error .invalidInput ∧
      mortgageInsurancePremium (500000 : ℝ) 25000 = .ok (premiumAmount 500000 25000) :=
  ⟨(claim_C8 500000 20000).1.mpr (by norm_num), (claim_C8 500000 25000).2 (by norm_num)⟩

/-- C7: for every positive price and ratio at least 5 %, the premium is `0`
from 20 % up and otherwise `round(rate × (price − down))` with the half-open
bands 4 % on `[0.05, 0.10)`, 3.1 % on `[0.10, 0.15)` and 2.8 % on
`[0.15, 0.20)`; in particular the three documented examples on a 500 000
purchase. -/
theorem claim_C7 :
    (∀ price down : ℝ, 0 < price → 5 / 100 ≤ down / price →
      ((20 / 100 ≤ down / price → mortgageInsurancePremium price down = .ok 0) ∧
        (down / price < 10 / 100 →
          mortgageInsurancePremium price down = .ok (roundTo 0 (4 / 100 * (price - down)))) ∧
        (10 / 100 ≤ down / price → down / price < 15 / 100 →
          mortgageInsurancePremium price down = .ok (roundTo 0 (31 / 1000 * (price - down)))) ∧
        (15 / 100 ≤ down / price → down / price < 20 / 100 →
          mortgageInsurancePremium price down = .ok (roundTo 0 (28 / 1000 * (price - down)))))) ∧
    mortgageInsurancePremium (500000 : ℝ) 25000 = .ok 19000 ∧
    mortgageInsurancePremium (500000 : ℝ) 50000 = .ok 13950 ∧
    mortgageInsurancePremium (500000 : ℝ) 75000 = .ok 11900 := by
  have hok : ∀ price down : ℝ, 5 / 100 ≤ down / price →
      mortgageInsurancePremium price down = .ok (premiumAmount price down) := by
    intro price down h
    unfold mortgageInsurancePremium
    rw [if_neg (not_lt.mpr h)]
  refine ⟨?_, ?_, ?_, ?_⟩
  · intro price down hp h5
    refine ⟨?_, ?_, ?_, ?_⟩
    · intro h20
      rw [hok price down h5]
      unfold premiumAmount premiumRate
      rw [if_neg (by linarith), if_neg (by linarith), if_neg (by linarith)]
      norm_num [roundTo]
    · intro h10
      rw [hok price down h5]
      unfold premiumAmount premiumRate
      rw [if_pos h10]
    · intro h10 h15
      rw [hok price down h5]
      unfold premiumAmount premiumRate
      rw [if_neg (by linarith), if_pos h15]
    · intro h15 h20
      rw [hok price down h5]
      unfold premiumAmount premiumRate
      rw [if_neg (by linarith), if_neg (by linarith), if_pos h20]
  · rw [hok 500000 25000 (by norm_num)]
    unfold premiumAmount premiumRate roundTo
    norm_num
  · rw [hok 500000 50000 (by norm_num)]
    unfold premiumAmount premiumRate roundTo
    norm_num
  · rw [hok 500000 75000 (by norm_num)]
    unfold premiumAmount premiumRate roundTo
    norm_num

/-- Witness for C7 at the 15 % band example. -/
theorem claim_C7_witness :
    0 < (500000 : ℝ) ∧ 5 / 100 ≤ (75000 : ℝ) / 500000 ∧
      mortgageInsurancePremium (500000 : ℝ) 75000 =
        .ok (roundTo 0 (28 / 1000 * ((500000 : ℝ) - 75000))) :=
  ⟨by norm_num, by norm_num,
    (claim_C7.1 500000 75000 (by norm_num) (by norm_num)).2.2.2 (by norm_num) (by norm_num)⟩

section ScheduleInvariants

lemma scheduleRows_get (idOpt : Option String) (d : ℕ) (B r P : ℝ) (N i : ℕ)
    (hi : i < (scheduleRows idOpt d B r P N).length) :
    (scheduleRows idOpt d B r P N).get ⟨i, hi⟩ = emitRow idOpt d B r P i := by
  unfold scheduleRows at hi ⊢
  rw [List.get_eq_getElem, List.getElem_map, List.getElem_range]

lemma scheduleRows_length (idOpt : Option String) (d : ℕ) (B r P : ℝ) (N : ℕ) :
    (scheduleRows idOpt d B r P N).length = N := by
  simp [scheduleRows]

lemma emitRow_consistency (idOpt : Option String) (d : ℕ) (B r P : ℝ) (k : ℕ) :
    |(emitRow idOpt d B r P k).interest + (emitRow idOpt d B r P k).capital -
        (emitRow idOpt d B r P k).payment| ≤ 3 / (2 * 10 ^ d) := by
  have e1 := abs_roundTo_sub_le d ((schedAccum B r P k).balance * r)
  have e2 := abs_roundTo_sub_le d (P - (schedAccum B r P k).balance * r)
  have e3 := abs_roundTo_sub_le d P
  rw [abs_le] at e1 e2 e3
  show |roundTo d ((schedAccum B r P k).balance * r) +
      roundTo d (P - (schedAccum B r P k).balance * r) - roundTo d P| ≤ _
  have hc : (3 : ℝ) / (2 * 10 ^ d) =
      1 / (2 * 10 ^ d) + 1 / (2 * 10 ^ d) + 1 / (2 * 10 ^ d) := by ring
  rw [hc, abs_le]
  constructor <;> [linarith [e1.1, e2.1, e3.2]; linarith [e1.2, e2.2, e3.1]]

lemma listMonoBy_scheduleRows (idOpt : Option String) (d : ℕ) (B r P : ℝ) (N : ℕ)
    (sel : PaymentRow ℝ → ℝ) (g : ℕ → ℝ)
    (hsel : ∀ k, sel (emitRow idOpt d B r P k) = roundTo d (g k))
    (hmono : ∀ i j, i ≤ j → j < N → g i ≤ g j) :
    ListMonoBy sel (scheduleRows idOpt d B r P N) := by
  intro i j hi hj hij
  have hjN : j < N := by
    have := hj
    rwa [scheduleRows_length] at this
  rw [scheduleRows_get, scheduleRows_get, hsel, hsel]
  exact roundTo_mono d (hmono i j hij hjN)

/-- A nonnegative payment that covers the interest on the principal keeps the
per-period capital portions nonnegative. -/
lemma capital_nonneg_of_cap {B r P : ℝ} (hr : 0 ≤ r) (hP : 0 ≤ P)
    (hBr : B * r ≤ P) (k : ℕ) : 0 ≤ P - balanceAfter B r P k * r := by
  rcases eq_or_lt_of_le hr with h0 | hpos
  · rw [← h0]
    simpa using hP
  · linarith [balanceAfter_le_cap hpos hBr k]

lemma sum_roundTo_le (d : ℕ) :
    ∀ (l : List ℝ), |(l.map (roundTo d)).sum - l.sum| ≤ l.length / (2 * 10 ^ d) := by
  intro l
  induction l with
  | nil => simp
  | cons x xs ih =>
      have hx := abs_roundTo_sub_le d x
      rw [abs_le] at hx ih
      simp only [List.map_cons, List.sum_cons, List.length_cons]
      rw [abs_le]
      push_cast
      have hc : ((xs.length : ℝ) + 1) / (2 * 10 ^ d) =
          (xs.length : ℝ) / (2 * 10 ^ d) + 1 / (2 * 10 ^ d) := by ring
      rw [hc]
      constructor <;> [linarith [hx.1, ih.1]; linarith [hx.2, ih.2]]

lemma sum_capital_accum (B r P : ℝ) :
    ∀ N : ℕ, ((List.range N).map (fun k => P - balanceAfter B r P k * r)).sum =
      (schedAccum B r P N).capitalPaid := by
  intro N
  induction N with
  | zero => simp [schedAccum]
  | succ n ih =>
      rw [List.range_succ, List.map_append, List.sum_append, ih]
      show (schedAccum B r P n).capitalPaid + (P - balanceAfter B r P n * r + 0) =
        (schedAccum B r P n).capitalPaid + (P - (schedAccum B r P n).balance * r)
      unfold balanceAfter
      ring

lemma capitalSum_invariant (idOpt : Option String) (d : ℕ) (B r P : ℝ) (N : ℕ) :
    |((scheduleRows idOpt d B r P N).map (fun row => row.capital)).sum +
        ((scheduleRows idOpt d B r P N).getLast?.elim B (fun row => row.balance)) - B| ≤
      (N + 1) / (2 * 10 ^ d) := by
  have hmap : (scheduleRows idOpt d B r P N).map (fun row => row.capital) =
      ((List.range N).map (fun k => P - balanceAfter B r P k * r)).map (roundTo d) := by
    unfold scheduleRows
    rw [List.map_map, List.map_map]
    rfl
  rcases Nat.eq_zero_or_pos N with h0 | hpos
  · subst h0
    simp [scheduleRows]
  · obtain ⟨n, rfl⟩ := Nat.exists_eq_succ_of_ne_zero (Nat.pos_iff_ne_zero.mp hpos)
    have hlast : (scheduleRows idOpt d B r P (n + 1)).getLast? =
        some (emitRow idOpt d B r P n) := by
      unfold scheduleRows
      rw [List.getLast?_map, List.range_succ, List.getLast?_concat]
      rfl
    rw [hmap, hlast]
    simp only [Option.elim]
    show |(((List.range (n + 1)).map (fun k => P - balanceAfter B r P k * r)).map
        (roundTo d)).sum + roundTo d (schedAccum B r P (n + 1)).balance - B| ≤
      (((n + 1 : ℕ) : ℝ) + 1) / (2 * 10 ^ d)
    have hsum := sum_roundTo_le d ((List.range (n + 1)).map
      (fun k => P - balanceAfter B r P k * r))
    rw [sum_capital_accum, schedAccum_capitalPaid] at hsum
    simp only [List.length_map, List.length_range] at hsum
    have hbal := abs_roundTo_sub_le d ((schedAccum B r P (n + 1)).balance)
    rw [abs_le] at hsum hbal
    rw [abs_le]
    have hc : (((n + 1 : ℕ) : ℝ) + 1) / (2 * 10 ^ d) =
        ((n + 1 : ℕ) : ℝ) / (2 * 10 ^ d) + 1 / (2 * 10 ^ d) := by ring
    rw [hc]
    constructor <;> [linarith [hsum.1, hbal.1]; linarith [hsum.2, hbal.2]]

end ScheduleInvariants

section RateComparison

lemma periodicRate_nonneg {nominal : ℝ} (h : 0 ≤ nominal) (m ppy : ℕ) :
    0 ≤ periodicRate nominal m ppy := by
  have hF := effectiveAnnualFactor_one_le h m
  have hroot := one_le_root hF ppy
  unfold periodicRate
  linarith

/-- Express `1 + periodicRate` through the common 156-th root of the effective
annual factor. -/
lemma one_add_rate_expand (nominal : ℝ) (m : ℕ) (h : 0 ≤ nominal) (ppy t : ℕ)
    (hppy : ppy ≠ 0) (ht : t ≠ 0) (hmul : ppy * t = 156) :
    1 + periodicRate nominal m ppy =
      (effectiveAnnualFactor nominal m ^ ((1 : ℝ) / 156)) ^ t := by
  have hF : (0 : ℝ) ≤ effectiveAnnualFactor nominal m := by
    linarith [effectiveAnnualFactor_one_le h m]
  rw [one_add_periodicRate, ← root_pow_collapse hF hppy ht, hmul]
  norm_num

lemma rate_quarter {nominal : ℝ} (h : 0 ≤ nominal) (m : ℕ) :
    4 * periodicRate nominal m 52 ≤ periodicRate nominal m 12 := by
  have hF1 := effectiveAnnualFactor_one_le h m
  have hw : 1 ≤ effectiveAnnualFactor nominal m ^ ((1 : ℝ) / 156) :=
    one_le_root hF1 156
  have h52 := one_add_rate_expand nominal m h 52 3 (by norm_num) (by norm_num) (by norm_num)
  have h12 := one_add_rate_expand nominal m h 12 13 (by norm_num) (by norm_num) (by norm_num)
  have hpoly := pow13_four_pow3 hw
  linarith

lemma rate_quarter_strict {nominal : ℝ} (h : 0 < nominal) {m : ℕ} (hm : m ≠ 0) :
    4 * periodicRate nominal m 52 < periodicRate nominal m 12 := by
  have hF1 := effectiveAnnualFactor_one_lt h hm
  have hw : 1 < effectiveAnnualFactor nominal m ^ ((1 : ℝ) / 156) :=
    one_lt_root hF1 (by norm_num)
  have h52 := one_add_rate_expand nominal m h.le 52 3 (by norm_num) (by norm_num)
    (by norm_num)
  have h12 := one_add_rate_expand nominal m h.le 12 13 (by norm_num) (by norm_num)
    (by norm_num)
  have hpoly := pow13_four_pow3_strict hw
  linarith

lemma rate_half {nominal : ℝ} (h : 0 ≤ nominal) (m : ℕ) :
    2 * periodicRate nominal m 26 ≤ periodicRate nominal m 12 := by
  have hF1 := effectiveAnnualFactor_one_le h m
  have hw : 1 ≤ effectiveAnnualFactor nominal m ^ ((1 : ℝ) / 156) :=
    one_le_root hF1 156
  have h26 := one_add_rate_expand nominal m h 26 6 (by norm_num) (by norm_num) (by norm_num)
  have h12 := one_add_rate_expand nominal m h 12 13 (by norm_num) (by norm_num) (by norm_num)
  have hpoly := pow13_two_pow6 hw
  linarith

lemma rate_half_strict {nominal : ℝ} (h : 0 < nominal) {m : ℕ} (hm : m ≠ 0) :
    2 * periodicRate nominal m 26 < periodicRate nominal m 12 := by
  have hF1 := effectiveAnnualFactor_one_lt h hm
  have hw : 1 < effectiveAnnualFactor nominal m ^ ((1 : ℝ) / 156) :=
    one_lt_root hF1 (by norm_num)
  have h26 := one_add_rate_expand nominal m h.le 26 6 (by norm_num) (by norm_num)
    (by norm_num)
  have h12 := one_add_rate_expand nominal m h.le 12 13 (by norm_num) (by norm_num)
    (by norm_num)
  have hpoly := pow13_two_pow6_strict hw
  linarith

/-- The monthly and weekly growth factors agree over whole years. -/
lemma pow_amort_eq_weekly {nominal : ℝ} (h : 0 ≤ nominal) (m a : ℕ) :
    (1 + periodicRate nominal m 12) ^ (12 * a) =
      (1 + periodicRate nominal m 52) ^ (52 * a) := by
  have hF : (0 : ℝ) ≤ effectiveAnnualFactor nominal m := by
    linarith [effectiveAnnualFactor_one_le h m]
  rw [one_add_periodicRate, one_add_periodicRate, root_pow_mul hF (by norm_num) a,
    root_pow_mul hF (by norm_num) a]

/-- The monthly and bi-weekly growth factors agree over whole years. -/
lemma pow_amort_eq_biweekly {nominal : ℝ} (h : 0 ≤ nominal) (m a : ℕ) :
    (1 + periodicRate nominal m 12) ^ (12 * a) =
      (1 + periodicRate nominal m 26) ^ (26 * a) := by
  have hF : (0 : ℝ) ≤ effectiveAnnualFactor nominal m := by
    linarith [effectiveAnnualFactor_one_le h m]
  rw [one_add_periodicRate, one_add_periodicRate, root_pow_mul hF (by norm_num) a,
    root_pow_mul hF (by norm_num) a]

end RateComparison

section PerPayment

lemma perPaymentAmount_standard (amount nominal : ℝ) (m amort : ℕ)
    {freq : PaymentFrequency} (hf : accelerationDivisor freq = 1) :
    perPaymentAmount amount nominal m freq amort =
      annuityPayment amount (periodicRate nominal m (paymentsPerYear freq))
        (paymentsPerYear freq * amort) := by
  cases freq <;>
    simp [perPaymentAmount, paymentBasisFrequency, accelerationDivisor,
      paymentsPerYear] at hf ⊢

lemma perPaymentAmount_nonneg {amount nominal : ℝ} (m : ℕ)
    (freq : PaymentFrequency) (amort : ℕ) (hB : 0 ≤ amount) (hn : 0 ≤ nominal) :
    0 ≤ perPaymentAmount amount nominal m freq amort := by
  unfold perPaymentAmount
  have h1 := annuityPayment_nonneg hB
    (periodicRate_nonneg hn m (paymentBasisFrequency freq))
    (paymentBasisFrequency freq * amort)
  have h2 : (0 : ℝ) ≤ ((accelerationDivisor freq : ℕ) : ℝ) := by positivity
  positivity

/-- Each fixed per-payment amount covers the interest on the full principal at
its disbursement cadence. -/
lemma interest_le_perPayment (amount nominal : ℝ) (m : ℕ)
    (freq : PaymentFrequency) {amort : ℕ} (hB : 0 ≤ amount) (hn : 0 ≤ nominal)
    (ha : amort ≠ 0) :
    amount * periodicRate nominal m (paymentsPerYear freq) ≤
      perPaymentAmount amount nominal m freq amort := by
  have hstd : ∀ ppy : ℕ, ppy ≠ 0 →
      amount * periodicRate nominal m ppy ≤
        annuityPayment amount (periodicRate nominal m ppy) (ppy * amort) := by
    intro ppy hppy
    rcases eq_or_lt_of_le (periodicRate_nonneg hn m ppy) with h0 | hpos
    · rw [← h0, annuityPayment_zero_rate]
      norm_num
    · exact interest_le_annuityPayment hB hpos (by positivity)
  have hacc : ∀ cadence divisor : ℕ, cadence ≠ 0 →
      (divisor : ℝ) * periodicRate nominal m cadence ≤ periodicRate nominal m 12 →
      0 < (divisor : ℝ) →
      amount * periodicRate nominal m cadence ≤
        annuityPayment amount (periodicRate nominal m 12) (12 * amort) / (divisor : ℝ) := by
    intro cadence divisor hcad hrate hdiv
    rcases eq_or_lt_of_le (periodicRate_nonneg hn m 12) with h0 | hpos
    · have hc0 : periodicRate nominal m cadence = 0 := by
        have hnn := periodicRate_nonneg hn m cadence
        nlinarith
      rw [hc0, ← h0, annuityPayment_zero_rate]
      norm_num
    · have h1 : amount * periodicRate nominal m 12 ≤
          annuityPayment amount (periodicRate nominal m 12) (12 * amort) :=
        interest_le_annuityPayment hB hpos (by positivity)
      rw [le_div_iff₀ hdiv]
      have h2 : amount * ((divisor : ℝ) * periodicRate nominal m cadence) ≤
          amount * periodicRate nominal m 12 :=
        mul_le_mul_of_nonneg_left hrate hB
      nlinarith
  cases freq with
  | acceleratedWeekly =>
      show amount * periodicRate nominal m 52 ≤
        annuityPayment amount (periodicRate nominal m 12) (12 * amort) / ((4 : ℕ) : ℝ)
      exact hacc 52 4 (by norm_num) (by push_cast; linarith [rate_quarter hn m])
        (by norm_num)
  | acceleratedBiWeekly =>
      show amount * periodicRate nominal m 26 ≤
        annuityPayment amount (periodicRate nominal m 12) (12 * amort) / ((2 : ℕ) : ℝ)
      exact hacc 26 2 (by norm_num) (by push_cast; linarith [rate_half hn m])
        (by norm_num)
  | weekly =>
      show amount * periodicRate nominal m 52 ≤
        annuityPayment amount (periodicRate nominal m 52) (52 * amort) / ((1 : ℕ) : ℝ)
      rw [Nat.cast_one, div_one]
      exact hstd 52 (by norm_num)
  | biWeekly =>
      show amount * periodicRate nominal m 26 ≤
        annuityPayment amount (periodicRate nominal m 26) (26 * amort) / ((1 : ℕ) : ℝ)
      rw [Nat.cast_one, div_one]
      exact hstd 26 (by norm_num)
  | monthly =>
      show amount * periodicRate nominal m 12 ≤
        annuityPayment amount (periodicRate nominal m 12) (12 * amort) / ((1 : ℕ) : ℝ)
      rw [Nat.cast_one, div_one]
      exact hstd 12 (by norm_num)
  | semiMonthly =>
      show amount * periodicRate nominal m 24 ≤
        annuityPayment amount (periodicRate nominal m 24) (24 * amort) / ((1 : ℕ) : ℝ)
      rw [Nat.cast_one, div_one]
      exact hstd 24 (by norm_num)

end PerPayment

section BalanceMonotone

lemma balanceAfter_antitone {B r P : ℝ} (hr : 0 ≤ r) (hP : 0 ≤ P)
    (hBr : B * r ≤ P) : ∀ {i j : ℕ}, i ≤ j →
      balanceAfter B r P j ≤ balanceAfter B r P i := by
  intro i j hij
  induction j with
  | zero =>
      have h0 : i = 0 := by omega
      subst h0
      exact le_refl _
  | succ n ih =>
      rcases Nat.lt_or_ge i (n + 1) with h | h
      · refine le_trans ?_ (ih (by omega))
        rw [balanceAfter_succ]
        have hcap := capital_nonneg_of_cap hr hP hBr n
        nlinarith
      · have h' : i = n + 1 := by omega
        subst h'
        exact le_refl _

lemma interestPaid_step (B r P : ℝ) (k : ℕ) :
    (schedAccum B r P (k + 1)).interestPaid =
      (schedAccum B r P k).interestPaid + balanceAfter B r P k * r := rfl

lemma interestPaid_mono {B r P : ℝ} (hr : 0 ≤ r) (Nb : ℕ)
    (hbal : ∀ k, k < Nb → 0 ≤ balanceAfter B r P k) :
    ∀ {i j : ℕ}, i ≤ j → j ≤ Nb →
      (schedAccum B r P i).interestPaid ≤ (schedAccum B r P j).interestPaid := by
  intro i j hij hj
  induction j with
  | zero =>
      have h0 : i = 0 := by omega
      subst h0
      exact le_refl _
  | succ n ih =>
      rcases Nat.lt_or_ge i (n + 1) with h | h
      · refine le_trans (ih (by omega) (by omega)) ?_
        rw [interestPaid_step]
        have hb := hbal n (by omega)
        nlinarith
      · have h' : i = n + 1 := by omega
        subst h'
        exact le_refl _

end BalanceMonotone

lemma rowsOf_valid (amount rate : ℝ) (freq : PaymentFrequency) (term amort : ℕ)
    (opts : MortgageOptions) (h : term ≤ amort) :
    rowsOf (mortgagePayments amount rate freq term amort opts) =
      scheduleRows opts.id (resolvedDecimals opts) amount
        (periodicRate (rate / 100) (resolvedCompounding opts) (paymentsPerYear freq))
        (perPaymentAmount amount (rate / 100) (resolvedCompounding opts) freq amort)
        (paymentsPerYear freq * term) := by
  unfold mortgagePayments
  rw [if_neg (not_lt.mpr h)]
  rfl

lemma paymentsPerYear_pos (freq : PaymentFrequency) : 0 < paymentsPerYear freq := by
  cases freq <;> norm_num [paymentsPerYear]

lemma balanceAfter_zero_rate_zero_payment (B : ℝ) (k : ℕ) :
    balanceAfter B 0 0 k = B := by
  induction k with
  | zero => rfl
  | succ n ih =>
      rw [balanceAfter_succ, ih]
      ring

/-- C1 (amended): for every valid call to `mortgagePayments` (nonnegative
amount and rate, amortization at least the term) the schedule has exactly
`paymentsPerYear × term` rows, every row satisfies
`interest + capital = payment` within rounding tolerance, the cumulative
`amountPaid` and `capitalPaid` are monotonically non-decreasing, and the sum of
the capital portions plus the final balance recovers the mortgage amount within
rounding epsilon; the cumulative `interestPaid` is monotonically non-decreasing
for the non-accelerated frequencies (for accelerated frequencies with
`term = amortizationPeriod` the balance overshoots zero within the term and the
interest portions turn negative, see the counterexample). -/
theorem claim_C1 (amount rate : ℝ) (freq : PaymentFrequency) (term amort : ℕ)
    (opts : MortgageOptions) (hB : 0 ≤ amount) (hr : 0 ≤ rate)
    (hta : term ≤ amort) :
    c1CoreInvariants amount (resolvedDecimals opts) (paymentsPerYear freq * term)
        (rowsOf (mortgagePayments amount rate freq term amort opts)) ∧
    (accelerationDivisor freq = 1 →
      ListMonoBy (fun row => row.interestPaid)
        (rowsOf (mortgagePayments amount rate freq term amort opts))) := by
  rw [rowsOf_valid amount rate freq term amort opts hta]
  have hn : (0 : ℝ) ≤ rate / 100 := by linarith
  set d := resolvedDecimals opts with hddef
  set ρ := periodicRate (rate / 100) (resolvedCompounding opts) (paymentsPerYear freq)
    with hρdef
  set P := perPaymentAmount amount (rate / 100) (resolvedCompounding opts) freq amort
    with hPdef
  set N := paymentsPerYear freq * term with hNdef
  have hρnn : 0 ≤ ρ := periodicRate_nonneg hn _ _
  have hPnn : 0 ≤ P := perPaymentAmount_nonneg _ freq amort hB hn
  have hBrN : N ≠ 0 → amount * ρ ≤ P := by
    intro hN
    have ha : amort ≠ 0 := by
      intro h0
      apply hN
      rw [hNdef]
      have ht0 : term = 0 := by omega
      rw [ht0, Nat.mul_zero]
    exact interest_le_perPayment amount (rate / 100) _ freq hB hn ha
  constructor
  · unfold c1CoreInvariants
    refine ⟨scheduleRows_length _ _ _ _ _ _, ?_, ?_, ?_,
      capitalSum_invariant _ _ _ _ _ _⟩
    · intro row hrow
      unfold scheduleRows at hrow
      obtain ⟨k, _, rfl⟩ := List.mem_map.mp hrow
      exact emitRow_consistency _ _ _ _ _ _
    · refine listMonoBy_scheduleRows _ _ _ _ _ _ _
        (fun k => (schedAccum amount ρ P (k + 1)).amountPaid) (fun k => rfl) ?_
      intro i j hij hjN
      show (schedAccum amount ρ P (i + 1)).amountPaid ≤
        (schedAccum amount ρ P (j + 1)).amountPaid
      rw [schedAccum_amountPaid, schedAccum_amountPaid]
      have hij' : ((i : ℝ)) ≤ (j : ℝ) := by exact_mod_cast hij
      push_cast
      nlinarith
    · refine listMonoBy_scheduleRows _ _ _ _ _ _ _
        (fun k => (schedAccum amount ρ P (k + 1)).capitalPaid) (fun k => rfl) ?_
      intro i j hij hjN
      have hBr := hBrN (by omega)
      show (schedAccum amount ρ P (i + 1)).capitalPaid ≤
        (schedAccum amount ρ P (j + 1)).capitalPaid
      rw [schedAccum_capitalPaid, schedAccum_capitalPaid]
      have hanti := balanceAfter_antitone hρnn hPnn hBr (Nat.succ_le_succ hij)
      unfold balanceAfter at hanti
      linarith
  · intro hstd
    have hPstd : P = annuityPayment amount ρ (paymentsPerYear freq * amort) := by
      rw [hPdef, perPaymentAmount_standard amount (rate / 100) _ amort hstd, hρdef]
    refine listMonoBy_scheduleRows _ _ _ _ _ _ _
      (fun k => (schedAccum amount ρ P (k + 1)).interestPaid) (fun k => rfl) ?_
    intro i j hij hjN
    show (schedAccum amount ρ P (i + 1)).interestPaid ≤
      (schedAccum amount ρ P (j + 1)).interestPaid
    refine interestPaid_mono hρnn N ?_ (Nat.succ_le_succ hij) (by omega)
    intro k hk
    rcases eq_or_lt_of_le hρnn with h0 | hpos
    · have hP0 : P = 0 := by
        rw [hPstd, ← h0, annuityPayment_zero_rate]
      rw [← h0, hP0, balanceAfter_zero_rate_zero_payment]
      exact hB
    · rw [hPstd]
      refine balanceAfter_annuity_nonneg hB hpos ?_ ?_
      · have hppy := paymentsPerYear_pos freq
        have hN0 : N ≠ 0 := by omega
        rw [hNdef] at hN0
        have hterm : term ≠ 0 := by
          intro ht0
          rw [ht0, Nat.mul_zero] at hN0
          exact hN0 rfl
        have ha : amort ≠ 0 := by omega
        positivity
      · have hNle : N ≤ paymentsPerYear freq * amort := by
          rw [hNdef]
          exact Nat.mul_le_mul_left _ hta
        omega

/-- Witness for C1 at the documented monthly example. -/
theorem claim_C1_witness :
    c1CoreInvariants 250000 (resolvedDecimals {}) (paymentsPerYear .monthly * 5)
        (rowsOf (mortgagePayments 250000 6 .monthly 5 25 {})) ∧
    ListMonoBy (fun row => row.interestPaid)
      (rowsOf (mortgagePayments 250000 6 .monthly 5 25 {})) :=
  ⟨(claim_C1 250000 6 .monthly 5 25 {} (by norm_num) (by norm_num) (by norm_num)).1,
    (claim_C1 250000 6 .monthly 5 25 {} (by norm_num) (by norm_num) (by norm_num)).2 rfl⟩

section Acceleration

lemma periodicRate_pos {nominal : ℝ} (h : 0 < nominal) {m : ℕ} (hm : m ≠ 0)
    {ppy : ℕ} (hppy : ppy ≠ 0) : 0 < periodicRate nominal m ppy := by
  have hF := effectiveAnnualFactor_one_lt h hm
  have := one_lt_root hF hppy
  unfold periodicRate
  linarith

lemma perPaymentAmount_accel (amount nominal : ℝ) (m amort : ℕ)
    {freq : PaymentFrequency}
    (hacc : freq = .acceleratedWeekly ∨ freq = .acceleratedBiWeekly) :
    perPaymentAmount amount nominal m freq amort =
      annuityPayment amount (periodicRate nominal m 12) (12 * amort) /
        ((accelerationDivisor freq : ℕ) : ℝ) := by
  rcases hacc with rfl | rfl <;> rfl

/-- A larger fixed payment reduces the balance strictly faster. -/
lemma balance_lt_of_payment_lt {B r P1 P2 : ℝ} (hr : 0 < 1 + r) (hP : P2 < P1) :
    ∀ k, 1 ≤ k → balanceAfter B r P1 k < balanceAfter B r P2 k := by
  intro k hk
  induction k with
  | zero => omega
  | succ n ih =>
      rcases Nat.eq_zero_or_pos n with h0 | hpos
      · subst h0
        rw [balanceAfter_succ, balanceAfter_succ, balanceAfter_zero, balanceAfter_zero]
        linarith
      · have hlt := ih hpos
        rw [balanceAfter_succ, balanceAfter_succ]
        nlinarith [mul_lt_mul_of_pos_right hlt hr]

/-- The accelerated-weekly payment (a quarter of the monthly payment) strictly
exceeds the weekly level annuity payment. -/
lemma accel_weekly_payment_gt (amount nominal : ℝ) (m a : ℕ) (hB : 0 < amount)
    (hn : 0 < nominal) (hm : m ≠ 0) (ha : a ≠ 0) :
    annuityPayment amount (periodicRate nominal m 52) (52 * a) <
      annuityPayment amount (periodicRate nominal m 12) (12 * a) / 4 := by
  have h52 : 0 < periodicRate nominal m 52 := periodicRate_pos hn hm (by norm_num)
  have hD : (1 + periodicRate nominal m 12) ^ (12 * a) =
      (1 + periodicRate nominal m 52) ^ (52 * a) := pow_amort_eq_weekly hn.le m a
  have hgt1 : 1 < (1 + periodicRate nominal m 52) ^ (52 * a) :=
    one_lt_pow₀ (by linarith) (by positivity)
  have hinv : ((1 + periodicRate nominal m 52) ^ (52 * a))⁻¹ < 1 :=
    inv_lt_one_of_one_lt₀ hgt1
  have hDpos : 0 < 1 - ((1 + periodicRate nominal m 52) ^ (52 * a))⁻¹ := by linarith
  have hrate := rate_quarter_strict hn hm
  unfold annuityPayment
  rw [hD, div_div, div_lt_div_iff₀ hDpos (by linarith)]
  nlinarith [mul_pos hB hDpos]

/-- The accelerated-bi-weekly payment (half of the monthly payment) strictly
exceeds the bi-weekly level annuity payment. -/
lemma accel_biweekly_payment_gt (amount nominal : ℝ) (m a : ℕ) (hB : 0 < amount)
    (hn : 0 < nominal) (hm : m ≠ 0) (ha : a ≠ 0) :
    annuityPayment amount (periodicRate nominal m 26) (26 * a) <
      annuityPayment amount (periodicRate nominal m 12) (12 * a) / 2 := by
  have h26 : 0 < periodicRate nominal m 26 := periodicRate_pos hn hm (by norm_num)
  have hD : (1 + periodicRate nominal m 12) ^ (12 * a) =
      (1 + periodicRate nominal m 26) ^ (26 * a) := pow_amort_eq_biweekly hn.le m a
  have hgt1 : 1 < (1 + periodicRate nominal m 26) ^ (26 * a) :=
    one_lt_pow₀ (by linarith) (by positivity)
  have hinv : ((1 + periodicRate nominal m 26) ^ (26 * a))⁻¹ < 1 :=
    inv_lt_one_of_one_lt₀ hgt1
  have hDpos : 0 < 1 - ((1 + periodicRate nominal m 26) ^ (26 * a))⁻¹ := by linarith
  have hrate := rate_half_strict hn hm
  unfold annuityPayment
  rw [hD, div_div, div_lt_div_iff₀ hDpos (by linarith)]
  nlinarith [mul_pos hB hDpos]

end Acceleration

/-- C2 (amended): for the accelerated frequencies, `mortgagePayments` uses as
the per-payment amount the MONTHLY level payment over the full amortization
divided by 4 (accelerated weekly) resp. 2 (accelerated bi-weekly), applies it
at the accelerated cadence by period-by-period balance reduction, and for every
such input with positive amount and rate the principal is reduced strictly
faster than the standard annuity schedule at that cadence. -/
theorem claim_C2 (amount rate : ℝ) (freq : PaymentFrequency) (term amort : ℕ)
    (opts : MortgageOptions) (hB : 0 < amount) (hr : 0 < rate) (hterm : 1 ≤ term)
    (hta : term ≤ amort) (hm : resolvedCompounding opts ≠ 0)
    (hacc : freq = .acceleratedWeekly ∨ freq = .acceleratedBiWeekly) :
    rowsOf (mortgagePayments amount rate freq term amort opts) =
      scheduleRows opts.id (resolvedDecimals opts) amount
        (periodicRate (rate / 100) (resolvedCompounding opts) (paymentsPerYear freq))
        (annuityPayment amount (periodicRate (rate / 100) (resolvedCompounding opts) 12)
            (12 * amort) / ((accelerationDivisor freq : ℕ) : ℝ))
        (paymentsPerYear freq * term) ∧
    (∀ k, 1 ≤ k → k ≤ paymentsPerYear freq * term →
      balanceAfter amount
          (periodicRate (rate / 100) (resolvedCompounding opts) (paymentsPerYear freq))
          (annuityPayment amount
              (periodicRate (rate / 100) (resolvedCompounding opts) 12) (12 * amort) /
            ((accelerationDivisor freq : ℕ) : ℝ)) k <
        balanceAfter amount
          (periodicRate (rate / 100) (resolvedCompounding opts) (paymentsPerYear freq))
          (annuityPayment amount
              (periodicRate (rate / 100) (resolvedCompounding opts) (paymentsPerYear freq))
              (paymentsPerYear freq * amort)) k) := by
  have hn : (0 : ℝ) < rate / 100 := by linarith
  have ha : amort ≠ 0 := by omega
  constructor
  · rw [rowsOf_valid amount rate freq term amort opts hta,
      perPaymentAmount_accel amount (rate / 100) (resolvedCompounding opts) amort hacc]
  · intro k hk1 hk2
    have hρpos : 0 < periodicRate (rate / 100) (resolvedCompounding opts)
        (paymentsPerYear freq) :=
      periodicRate_pos hn hm (Nat.pos_iff_ne_zero.mp (paymentsPerYear_pos freq))
    refine balance_lt_of_payment_lt (by linarith) ?_ k hk1
    rcases hacc with rfl | rfl
    · show annuityPayment amount
          (periodicRate (rate / 100) (resolvedCompounding opts) 52) (52 * amort) <
        annuityPayment amount
          (periodicRate (rate / 100) (resolvedCompounding opts) 12) (12 * amort) /
          ((4 : ℕ) : ℝ)
      rw [show (((4 : ℕ) : ℝ)) = 4 from by norm_num]
      exact accel_weekly_payment_gt amount (rate / 100) _ amort hB hn hm ha
    · show annuityPayment amount
          (periodicRate (rate / 100) (resolvedCompounding opts) 26) (26 * amort) <
        annuityPayment amount
          (periodicRate (rate / 100) (resolvedCompounding opts) 12) (12 * amort) /
          ((2 : ℕ) : ℝ)
      rw [show (((2 : ℕ) : ℝ)) = 2 from by norm_num]
      exact accel_biweekly_payment_gt amount (rate / 100) _ amort hB hn hm ha

/-- Witness for C2 at the documented inputs (accelerated weekly, 250 000 at
6 % over a 5-year term and 25-year amortization), checked at the first
payment. -/
theorem claim_C2_witness :
    rowsOf (mortgagePayments 250000 6 .acceleratedWeekly 5 25 {}) =
      scheduleRows none 2 250000
        (periodicRate (6 / 100) 2 (paymentsPerYear .acceleratedWeekly))
        (annuityPayment 250000 (periodicRate (6 / 100) 2 12) (12 * 25) /
          ((accelerationDivisor .acceleratedWeekly : ℕ) : ℝ))
        (paymentsPerYear .acceleratedWeekly * 5) ∧
    balanceAfter 250000 (periodicRate (6 / 100) 2 (paymentsPerYear .acceleratedWeekly))
        (annuityPayment 250000 (periodicRate (6 / 100) 2 12) (12 * 25) /
          ((accelerationDivisor .acceleratedWeekly : ℕ) : ℝ)) 1 <
      balanceAfter 250000 (periodicRate (6 / 100) 2 (paymentsPerYear .acceleratedWeekly))
        (annuityPayment 250000
          (periodicRate (6 / 100) 2 (paymentsPerYear .acceleratedWeekly))
          (paymentsPerYear .acceleratedWeekly * 25)) 1 := by
  have h := claim_C2 250000 6 .acceleratedWeekly 5 25 {} (by norm_num) (by norm_num)
    (by norm_num) (by norm_num) (by decide) (Or.inl rfl)
  exact ⟨h.1, h.2 1 (le_refl 1) (by norm_num [paymentsPerYear])⟩

/-- C2 counterexample: at the documented inputs, the accelerated-weekly
per-payment amount (a quarter of the monthly payment) is strictly greater than
— hence not equal to — the level payment computed for the matching
non-accelerated base frequency (weekly) over the full amortization. -/
theorem claim_C2_counterexample :
    perPaymentAmount 250000 ((6 : ℝ) / 100) 2 .acceleratedWeekly 25 ≠
      annuityPayment 250000
        (periodicRate ((6 : ℝ) / 100) 2 (paymentsPerYear .acceleratedWeekly))
        (paymentsPerYear .acceleratedWeekly * 25) := by
  have hlt := accel_weekly_payment_gt 250000 ((6 : ℝ) / 100) 2 25 (by norm_num)
    (by norm_num) (by norm_num) (by norm_num)
  have he : perPaymentAmount 250000 ((6 : ℝ) / 100) 2 .acceleratedWeekly 25 =
      annuityPayment 250000 (periodicRate ((6 : ℝ) / 100) 2 12) (12 * 25) / 4 := by
    unfold perPaymentAmount
    norm_num [paymentBasisFrequency, accelerationDivisor]
  rw [he, show paymentsPerYear PaymentFrequency.acceleratedWeekly = 52 from rfl]
  intro heq
  rw [← heq] at hlt
  exact lt_irrefl _ hlt

section AcceleratedCounterexample

lemma pow_root_cancel {x : ℝ} (hx : 0 ≤ x) {n : ℕ} (hn : n ≠ 0) :
    (x ^ n) ^ ((1 : ℝ) / n) = x := by
  rw [← Real.rpow_natCast x n, ← Real.rpow_mul hx]
  rw [mul_one_div, div_self (by exact_mod_cast hn), Real.rpow_one]

lemma facAcc : effectiveAnnualFactor (accRate / 100) 2 = vr ^ 156 := by
  unfold effectiveAnnualFactor accRate
  push_cast
  ring

lemma rhoAcc52 : periodicRate (accRate / 100) 2 52 = vr ^ 3 - 1 := by
  unfold periodicRate
  rw [facAcc]
  rw [show (vr : ℝ) ^ 156 = (vr ^ 3) ^ 52 from by ring]
  rw [pow_root_cancel (by unfold vr; positivity) (by norm_num)]

lemma rhoAcc12 : periodicRate (accRate / 100) 2 12 = vr ^ 13 - 1 := by
  unfold periodicRate
  rw [facAcc]
  rw [show (vr : ℝ) ^ 156 = (vr ^ 13) ^ 12 from by ring]
  rw [pow_root_cancel (by unfold vr; positivity) (by norm_num)]

lemma payAcc_eq : perPaymentAmount 1000 (accRate / 100) 2 .acceleratedWeekly 1 = payAcc := by
  unfold perPaymentAmount payAcc
  rw [show paymentBasisFrequency .acceleratedWeekly = 12 from rfl, rhoAcc12]
  norm_num [accelerationDivisor]

lemma rowsAcc : rowsOf (mortgagePayments 1000 accRate .acceleratedWeekly 1 1 {}) =
    scheduleRows none 2 1000 (vr ^ 3 - 1) payAcc 52 := by
  rw [rowsOf_valid 1000 accRate .acceleratedWeekly 1 1 {} (le_refl 1)]
  rw [show resolvedCompounding ({} : MortgageOptions) = 2 from rfl]
  rw [show resolvedDecimals ({} : MortgageOptions) = 2 from rfl]
  rw [show paymentsPerYear PaymentFrequency.acceleratedWeekly = 52 from rfl]
  rw [rhoAcc52, payAcc_eq]

lemma accInterestPaid_eq (k : ℕ) :
    (schedAccum (1000 : ℝ) (vr ^ 3 - 1) payAcc k).interestPaid =
      k * payAcc - (1000 - balanceAfter 1000 (vr ^ 3 - 1) payAcc k) := by
  rw [schedAccum_interestPaid, schedAccum_amountPaid, schedAccum_capitalPaid]
  unfold balanceAfter
  ring

lemma hrAccNe : (vr : ℝ) ^ 3 - 1 ≠ 0 := by
  unfold vr
  norm_num

set_option maxRecDepth 4000 in
lemma IP_emit47 :
    roundTo 2 (schedAccum (1000 : ℝ) (vr ^ 3 - 1) payAcc 48).interestPaid =
      7443 / 100 := by
  rw [accInterestPaid_eq, balanceAfter_closed 1000 payAcc hrAccNe 48]
  unfold payAcc vr annuityPayment
  rw [roundTo_eq_of_mem 2 _ 7443 (by norm_num) (by norm_num)]
  norm_num

set_option maxRecDepth 4000 in
lemma IP_emit48 :
    roundTo 2 (schedAccum (1000 : ℝ) (vr ^ 3 - 1) payAcc 49).interestPaid =
      744 / 10 := by
  rw [accInterestPaid_eq, balanceAfter_closed 1000 payAcc hrAccNe 49]
  unfold payAcc vr annuityPayment
  rw [roundTo_eq_of_mem 2 _ 7440 (by norm_num) (by norm_num)]
  norm_num

end AcceleratedCounterexample

/-- C1 counterexample: for the accelerated-weekly schedule on 1000 at the
(rational-factor) rate `accRate ≈ 16.2 %` with term = amortization = 1 year,
the fixed payment overpays the loan before the year ends, the balance turns
negative, and the emitted cumulative interest DECREASES from row 47 (74.43) to
row 48 (74.40), violating the claimed monotonicity of the cumulative fields. -/
theorem claim_C1_counterexample :
    ¬ c1Property 1000 accRate .acceleratedWeekly 1 1 {} := by
  intro h
  have hmono := h.2
  rw [rowsAcc] at hmono
  have h47 : (47 : ℕ) < (scheduleRows none 2 1000 (vr ^ 3 - 1) payAcc 52).length := by
    rw [scheduleRows_length]
    norm_num
  have h48 : (48 : ℕ) < (scheduleRows none 2 1000 (vr ^ 3 - 1) payAcc 52).length := by
    rw [scheduleRows_length]
    norm_num
  have hle := hmono 47 48 h47 h48 (by norm_num)
  rw [scheduleRows_get, scheduleRows_get] at hle
  have e1 : (fun row => row.interestPaid) (emitRow none 2 1000 (vr ^ 3 - 1) payAcc 47) =
      7443 / 100 := IP_emit47
  have e2 : (fun row => row.interestPaid) (emitRow none 2 1000 (vr ^ 3 - 1) payAcc 48) =
      744 / 10 := IP_emit48
  rw [e1, e2] at hle
  norm_num at hle

lemma getD_map_range (f : ℕ → PaymentRow ℝ) {N k : ℕ} (d : PaymentRow ℝ)
    (h : k < N) : ((List.range N).map f).getD k d = f k := by
  rw [List.getD_eq_getElem?_getD, List.getElem?_map, List.getElem?_range h]
  rfl

section ConcreteMonthly

lemma fac6 : effectiveAnnualFactor ((6 : ℝ) / 100) 2 = 10609 / 10000 := by
  unfold effectiveAnnualFactor
  push_cast
  norm_num

lemma u6_lo : q6lo ≤ 1 + rho6 := by
  unfold rho6 q6lo
  rw [one_add_periodicRate, fac6]
  exact le_root_of_pow_le (by norm_num) (by norm_num) (by norm_num)

lemma u6_hi : 1 + rho6 ≤ q6hi := by
  unfold rho6 q6hi
  rw [one_add_periodicRate, fac6]
  exact root_le_of_le_pow (by norm_num) (by norm_num) (by norm_num) (by norm_num)

lemma rho6_pos : 0 < rho6 := by
  have h := u6_lo
  unfold q6lo at h
  norm_num at h
  linarith

lemma pay6_bounds :
    250000 * (q6lo - 1) / (1 - (q6hi ^ 300)⁻¹) ≤ pay6 ∧
      pay6 ≤ 250000 * (q6hi - 1) / (1 - (q6lo ^ 300)⁻¹) := by
  unfold pay6
  exact annuityPayment_bounds (by norm_num) (by unfold q6lo; norm_num) u6_lo u6_hi
    (by norm_num)

lemma pay6_cell : (1599515 / 1000 : ℝ) ≤ pay6 ∧ pay6 < (1599525 / 1000 : ℝ) := by
  have h := pay6_bounds
  unfold q6lo q6hi at h
  constructor
  · refine le_trans ?_ h.1
    norm_num
  · refine lt_of_le_of_lt h.2 ?_
    norm_num

lemma row0_payment_val : roundTo 2 pay6 = 159952 / 100 := by
  have h := pay6_cell
  rw [roundTo_eq_of_mem 2 pay6 159952 (by push_cast; nlinarith [h.1])
    (by push_cast; nlinarith [h.2])]
  norm_num

lemma rho6_cell : (4938622031 / 1000000000000 : ℝ) ≤ rho6 ∧
    rho6 ≤ (4938622032 / 1000000000000 : ℝ) := by
  have h1 := u6_lo
  have h2 := u6_hi
  unfold q6lo at h1
  unfold q6hi at h2
  constructor <;> [linarith; linarith]

lemma row0_interest_val : roundTo 2 (250000 * rho6) = 123466 / 100 := by
  have h := rho6_cell
  rw [roundTo_eq_of_mem 2 (250000 * rho6) 123466 (by push_cast; nlinarith [h.1])
    (by push_cast; nlinarith [h.2])]
  norm_num

lemma row0_capital_val : roundTo 2 (pay6 - 250000 * rho6) = 36486 / 100 := by
  have h := rho6_cell
  have hp := pay6_bounds
  unfold q6lo q6hi at hp
  rw [roundTo_eq_of_mem 2 (pay6 - 250000 * rho6) 36486
    (by push_cast; nlinarith [h.2, hp.1]) (by push_cast; nlinarith [h.1, hp.2])]
  norm_num

lemma row0_balance_val :
    roundTo 2 (250000 - (pay6 - 250000 * rho6)) = 24963514 / 100 := by
  have h := rho6_cell
  have hp := pay6_bounds
  unfold q6lo q6hi at hp
  rw [roundTo_eq_of_mem 2 (250000 - (pay6 - 250000 * rho6)) 24963514
    (by push_cast; nlinarith [h.1, hp.2]) (by push_cast; nlinarith [h.2, hp.1])]
  norm_num

lemma u6_pow60 : q6lo ^ 60 ≤ (1 + rho6) ^ 60 ∧ (1 + rho6) ^ 60 ≤ q6hi ^ 60 :=
  ⟨pow_le_pow_left₀ (by unfold q6lo; norm_num) u6_lo 60,
    pow_le_pow_left₀ (by linarith [rho6_pos]) u6_hi 60⟩

lemma b60_closed :
    balanceAfter 250000 rho6 pay6 60 =
      (1 + rho6) ^ 60 * 250000 - pay6 * ((1 + rho6) ^ 60 - 1) / rho6 :=
  balanceAfter_closed 250000 pay6 (ne_of_gt rho6_pos) 60

set_option maxRecDepth 10000 in
set_option maxHeartbeats 3200000 in
lemma b60_cell : (224591755 / 1000 : ℝ) ≤ balanceAfter 250000 rho6 pay6 60 ∧
    balanceAfter 250000 rho6 pay6 60 < (224591765 / 1000 : ℝ) := by
  have hq := rho6_cell
  have hp := pay6_bounds
  have hpow := u6_pow60
  have hppos : 0 ≤ pay6 := annuityPayment_nonneg (by norm_num) rho6_pos.le 300
  have hS_lo : (q6lo ^ 60 - 1) / (q6hi - 1) ≤ ((1 + rho6) ^ 60 - 1) / rho6 := by
    refine div_le_div₀ ?_ (by linarith [hpow.1]) rho6_pos ?_
    · have h1 : (1 : ℝ) ≤ (1 + rho6) ^ 60 := one_le_pow₀ (by linarith [rho6_pos])
      linarith
    · unfold q6hi
      linarith [hq.2]
  have hS_hi : ((1 + rho6) ^ 60 - 1) / rho6 ≤ (q6hi ^ 60 - 1) / (q6lo - 1) := by
    refine div_le_div₀ ?_ (by linarith [hpow.2]) ?_ ?_
    · have : (1 : ℝ) ≤ q6hi ^ 60 := one_le_pow₀ (by unfold q6hi; norm_num)
      linarith
    · unfold q6lo
      norm_num
    · unfold q6lo
      linarith [hq.1]
  have hS_nonneg : 0 ≤ ((1 + rho6) ^ 60 - 1) / rho6 := by
    have h1 : (1 : ℝ) ≤ (1 + rho6) ^ 60 := one_le_pow₀ (by linarith [rho6_pos])
    exact div_nonneg (by linarith) rho6_pos.le
  have hmul_hi : pay6 * (((1 + rho6) ^ 60 - 1) / rho6) ≤
      (250000 * (q6hi - 1) / (1 - (q6lo ^ 300)⁻¹)) * ((q6hi ^ 60 - 1) / (q6lo - 1)) :=
    mul_le_mul hp.2 hS_hi hS_nonneg (by unfold q6lo q6hi; norm_num)
  have hmul_lo : (250000 * (q6lo - 1) / (1 - (q6hi ^ 300)⁻¹)) *
      ((q6lo ^ 60 - 1) / (q6hi - 1)) ≤ pay6 * (((1 + rho6) ^ 60 - 1) / rho6) := by
    refine mul_le_mul hp.1 hS_lo ?_ hppos
    unfold q6lo q6hi
    norm_num
  rw [b60_closed]
  have key_lo : (224591755 / 1000 : ℝ) ≤ q6lo ^ 60 * 250000 -
      (250000 * (q6hi - 1) / (1 - (q6lo ^ 300)⁻¹)) * ((q6hi ^ 60 - 1) / (q6lo - 1)) := by
    unfold q6lo q6hi
    norm_num
  have key_hi : q6hi ^ 60 * 250000 -
      (250000 * (q6lo - 1) / (1 - (q6hi ^ 300)⁻¹)) * ((q6lo ^ 60 - 1) / (q6hi - 1)) <
      (224591765 / 1000 : ℝ) := by
    unfold q6lo q6hi
    norm_num
  have hBpow_lo : q6lo ^ 60 * 250000 ≤ (1 + rho6) ^ 60 * 250000 := by nlinarith [hpow.1]
  have hBpow_hi : (1 + rho6) ^ 60 * 250000 ≤ q6hi ^ 60 * 250000 := by nlinarith [hpow.2]
  constructor
  · have : pay6 * ((1 + rho6) ^ 60 - 1) / rho6 =
        pay6 * (((1 + rho6) ^ 60 - 1) / rho6) := by ring
    rw [this]
    linarith
  · have : pay6 * ((1 + rho6) ^ 60 - 1) / rho6 =
        pay6 * (((1 + rho6) ^ 60 - 1) / rho6) := by ring
    rw [this]
    linarith

lemma row59_balance_val : roundTo 2 (balanceAfter 250000 rho6 pay6 60) = 22459176 / 100 := by
  have h := b60_cell
  rw [roundTo_eq_of_mem 2 _ 22459176 (by push_cast; nlinarith [h.1])
    (by push_cast; nlinarith [h.2])]
  norm_num

lemma perPayment_monthly :
    perPaymentAmount 250000 ((6 : ℝ) / 100) 2 .monthly 25 = pay6 := by
  unfold perPaymentAmount pay6 rho6
  show annuityPayment 250000 (periodicRate (6 / 100) 2 (paymentBasisFrequency .monthly))
      (paymentBasisFrequency .monthly * 25) / ((accelerationDivisor .monthly : ℕ) : ℝ) = _
  norm_num [paymentBasisFrequency, accelerationDivisor, paymentsPerYear]

lemma rowsOf_monthly_example :
    rowsOf (mortgagePayments 250000 6 .monthly 5 25 {}) =
      (List.range 60).map (emitRow none 2 250000 rho6 pay6) := by
  have h2 : resolvedCompounding ({} : MortgageOptions) = 2 := rfl
  have hd : resolvedDecimals ({} : MortgageOptions) = 2 := rfl
  unfold mortgagePayments
  rw [if_neg (by norm_num)]
  unfold rowsOf
  simp only [Except.toOption, Option.getD]
  unfold scheduleRows
  rw [h2, hd, perPayment_monthly]
  rfl

lemma row0_extract :
    rowAt (mortgagePayments 250000 6 .monthly 5 25 {}) 0 =
      emitRow none 2 250000 rho6 pay6 0 := by
  unfold rowAt
  rw [rowsOf_monthly_example, getD_map_range _ emptyRow (by norm_num)]

lemma row59_extract :
    rowAt (mortgagePayments 250000 6 .monthly 5 25 {}) 59 =
      emitRow none 2 250000 rho6 pay6 59 := by
  unfold rowAt
  rw [rowsOf_monthly_example, getD_map_range _ emptyRow (by norm_num)]

lemma row59_balance_extract :
    (rowAt (mortgagePayments 250000 6 .monthly 5 25 {}) 59).balance =
      22459176 / 100 := by
  rw [row59_extract]
  show roundTo 2 (schedAccum (250000 : ℝ) rho6 pay6 60).balance = _
  exact row59_balance_val

end ConcreteMonthly

/-- C3 (amended): `mortgagePayments(250000, 6, "monthly", 5, 25)` returns a
60-row schedule whose first row has payment 1599.52, interest 1234.66, capital
364.86 and balance 249635.14 as emitted at two decimals, the level payment
being the annuity formula `balance × r / (1 − (1+r)^−n)` with
`n = paymentsPerYear × amortizationYears`; the last (60th) row's balance is
224591.76 (the claimed 224591.84 is what per-row-rounded accumulation would
show, not the spec's unrounded accumulation). -/
theorem claim_C3 :
    (rowsOf (mortgagePayments 250000 6 .monthly 5 25 {})).length = 60 ∧
    (rowAt (mortgagePayments 250000 6 .monthly 5 25 {}) 0).payment = 1599.52 ∧
    (rowAt (mortgagePayments 250000 6 .monthly 5 25 {}) 0).interest = 1234.66 ∧
    (rowAt (mortgagePayments 250000 6 .monthly 5 25 {}) 0).capital = 364.86 ∧
    (rowAt (mortgagePayments 250000 6 .monthly 5 25 {}) 0).balance = 249635.14 ∧
    (rowAt (mortgagePayments 250000 6 .monthly 5 25 {}) 59).balance = 224591.76 ∧
    perPaymentAmount 250000 ((6 : ℝ) / 100) 2 .monthly 25 =
      annuityPayment 250000 (periodicRate ((6 : ℝ) / 100) 2 (paymentsPerYear .monthly))
        (paymentsPerYear .monthly * 25) := by
  refine ⟨?_, ?_, ?_, ?_, ?_, ?_, ?_⟩
  · rw [rowsOf_monthly_example]
    simp
  · rw [row0_extract]
    show roundTo 2 pay6 = _
    rw [row0_payment_val]
    norm_num
  · rw [row0_extract]
    show roundTo 2 ((schedAccum (250000 : ℝ) rho6 pay6 0).balance * rho6) = _
    have hb : (schedAccum (250000 : ℝ) rho6 pay6 0).balance = 250000 := rfl
    rw [hb, row0_interest_val]
    norm_num
  · rw [row0_extract]
    show roundTo 2 (pay6 - (schedAccum (250000 : ℝ) rho6 pay6 0).balance * rho6) = _
    have hb : (schedAccum (250000 : ℝ) rho6 pay6 0).balance = 250000 := rfl
    rw [hb, row0_capital_val]
    norm_num
  · rw [row0_extract]
    show roundTo 2 (schedAccum (250000 : ℝ) rho6 pay6 1).balance = _
    have hb : (schedAccum (250000 : ℝ) rho6 pay6 1).balance =
        250000 - (pay6 - 250000 * rho6) := by
      show (250000 : ℝ) - (pay6 - 250000 * rho6) = _
      ring
    rw [hb, row0_balance_val]
    norm_num
  · rw [row59_balance_extract]
    norm_num
  · rw [perPayment_monthly]
    unfold pay6 rho6
    norm_num [paymentsPerYear]

/-- C3 counterexample: the last row's emitted balance is exactly 224591.76, so
it is not within a cent-level tolerance of the claimed 224591.84. -/
theorem claim_C3_counterexample :
    ¬ |(rowAt (mortgagePayments 250000 6 .monthly 5 25 {}) 59).balance -
        224591.84| ≤ 5 / 1000 := by
  rw [row59_balance_extract]
  rw [abs_le]
  intro h
  have := h.1
  norm_num at this

/-- C4: for every nonnegative nominal rate, every compounding count `m ≥ 1`
and every payment frequency, the periodic rate equals
`(1 + nominal/m)^(m/ppy) − 1` — the effective-annual-rate root construction —
and the compounding count resolves to 2 when not supplied. -/
theorem claim_C4 :
    (∀ (nominal : ℝ) (m : ℕ) (freq : PaymentFrequency), 0 ≤ nominal → 1 ≤ m →
      periodicRate nominal m (paymentsPerYear freq) =
        (1 + nominal / (m : ℝ)) ^ ((m : ℝ) / (paymentsPerYear freq : ℝ)) - 1) ∧
    (∀ opts : MortgageOptions, opts.annualCompounding = none →
      resolvedCompounding opts = 2) := by
  constructor
  · intro nominal m freq hn hm
    unfold periodicRate effectiveAnnualFactor
    congr 1
    have hm' : (0 : ℝ) < (m : ℝ) := by exact_mod_cast hm
    have hbase : (0 : ℝ) ≤ 1 + nominal / (m : ℝ) := by positivity
    rw [← Real.rpow_natCast (1 + nominal / (m : ℝ)) m, ← Real.rpow_mul hbase]
    rw [mul_one_div]
  · intro opts h
    simp [resolvedCompounding, h]

/-- Witness for C4 at a 6 % nominal rate, semi-annual compounding, monthly
payments. -/
theorem claim_C4_witness :
    periodicRate (6 / 100) 2 (paymentsPerYear .monthly) =
      (1 + (6 / 100) / ((2 : ℕ) : ℝ)) ^
        (((2 : ℕ) : ℝ) / ((paymentsPerYear PaymentFrequency.monthly : ℕ) : ℝ)) - 1 ∧
    resolvedCompounding {} = 2 :=
  ⟨claim_C4.1 (6 / 100) 2 .monthly (by norm_num) (by norm_num), claim_C4.2 {} rfl⟩

section Affordability

lemma stress525 : stressRate (5.25 : ℝ) = 725 / 100 := by
  unfold stressRate
  rw [max_eq_left (by norm_num)]
  norm_num

lemma exCtx_rho : exCtx.rho = periodicRate ((29 : ℝ) / 400) 2 12 := by
  show periodicRate (stressRate (5.25 : ℝ) / 100) 2 12 = _
  rw [stress525]
  norm_num

lemma fac7 : effectiveAnnualFactor ((29 : ℝ) / 400) 2 = 687241 / 640000 := by
  unfold effectiveAnnualFactor
  push_cast
  norm_num

lemma u7_lo : r7lo ≤ 1 + exCtx.rho := by
  rw [exCtx_rho, one_add_periodicRate, fac7]
  unfold r7lo
  exact le_root_of_pow_le (by norm_num) (by norm_num) (by norm_num)

lemma u7_hi : 1 + exCtx.rho ≤ r7hi := by
  rw [exCtx_rho, one_add_periodicRate, fac7]
  unfold r7hi
  exact root_le_of_le_pow (by norm_num) (by norm_num) (by norm_num) (by norm_num)

lemma rho7_pos : 0 < exCtx.rho := by
  have h := u7_lo
  unfold r7lo at h
  norm_num at h
  linarith

lemma exCtx_down : exCtx.down = 25000 := rfl

lemma exCtx_income : exCtx.income = 100000 := rfl

lemma exCtx_heating : exCtx.heating = 175 := rfl

lemma exCtx_condo : exCtx.condo = 0 := rfl

lemma exCtx_debt : exCtx.debt = 0 := rfl

lemma exCtx_tax (c : ℝ) : monthlyTaxAt exCtx c = 15 / 1000 * c / 12 := rfl

/-- In the 4 % band (grid index above 250) the premium is exactly
`40 j − 1000`. -/
lemma premJ (j : ℕ) (hj : 250 < j) :
    premiumAmount (candidatePrice j) 25000 = 40 * (j : ℝ) - 1000 := by
  unfold premiumAmount premiumRate candidatePrice
  have hj0 : (0 : ℝ) < (j : ℝ) := by exact_mod_cast (by omega : 0 < j)
  have hjpos : (0 : ℝ) < 1000 * (j : ℝ) := by positivity
  have hratio : (25000 : ℝ) / (1000 * (j : ℝ)) < 10 / 100 := by
    rw [div_lt_iff₀ hjpos]
    have hj' : (250 : ℝ) < (j : ℝ) := by exact_mod_cast hj
    nlinarith
  rw [if_pos hratio]
  unfold roundTo
  have harg : (4 : ℝ) / 100 * (1000 * (j : ℝ) - 25000) * 10 ^ 0 + 1 / 2 =
      ((40 * (j : ℤ) - 1000 : ℤ) : ℝ) + 1 / 2 := by
    push_cast
    ring
  rw [harg, Int.floor_int_add]
  push_cast
  norm_num

/-- Mortgage amount at grid index `j` in the 4 % band. -/
lemma mortJ (j : ℕ) (hj : 250 < j) :
    mortgageAmountAt 25000 (candidatePrice j) = 1040 * (j : ℝ) - 26000 := by
  unfold mortgageAmountAt
  rw [premJ j hj]
  unfold candidatePrice
  ring

lemma gds307 : gdsAt exCtx (candidatePrice 307) ≤ gdsCap := by
  have hpay := (annuityPayment_bounds (show (0 : ℝ) ≤ 293280 by norm_num)
    (show (1 : ℝ) < r7lo from by unfold r7lo; norm_num) u7_lo u7_hi
    (show (300 : ℕ) ≠ 0 by norm_num)).2
  have hub : (293280 : ℝ) * (r7hi - 1) / (1 - (r7lo ^ 300)⁻¹) ≤ 25295 / 12 := by
    unfold r7lo r7hi
    norm_num
  unfold gdsAt housingCostAt monthlyPaymentAt
  rw [exCtx_heating, exCtx_condo, exCtx_income, exCtx_tax]
  rw [show exCtx.down = (25000 : ℝ) from rfl]
  rw [mortJ 307 (by norm_num)]
  rw [show (1040 : ℝ) * ((307 : ℕ) : ℝ) - 26000 = 293280 from by norm_num]
  rw [show candidatePrice 307 = (307000 : ℝ) from by unfold candidatePrice; norm_num]
  unfold gdsCap
  rw [div_le_iff₀ (by norm_num : (0 : ℝ) < 100000 / 12)]
  have h1 : (15 : ℝ) / 1000 * 307000 / 12 = 1535 / 4 := by norm_num
  rw [h1]
  linarith

lemma tds307 : tdsAt exCtx (candidatePrice 307) ≤ tdsCap := by
  unfold tdsAt
  rw [exCtx_debt, exCtx_income]
  have h := gds307
  unfold gdsCap at h
  unfold tdsCap
  rw [zero_div]
  linarith

lemma gds_high (j : ℕ) (hj : 308 ≤ j) (hj2 : j ≤ 500) :
    ¬ (gdsAt exCtx (candidatePrice j) ≤ gdsCap) := by
  have hjr : (308 : ℝ) ≤ (j : ℝ) := by exact_mod_cast hj
  have hMge : (294320 : ℝ) ≤ 1040 * (j : ℝ) - 26000 := by nlinarith
  have hpay := (annuityPayment_bounds (show (0 : ℝ) ≤ 1040 * (j : ℝ) - 26000 by nlinarith)
    (show (1 : ℝ) < r7lo from by unfold r7lo; norm_num) u7_lo u7_hi
    (show (300 : ℕ) ≠ 0 by norm_num)).1
  have hDpos : (0 : ℝ) < 1 - (r7hi ^ 300)⁻¹ := by
    unfold r7hi
    norm_num
  have hr1 : (0 : ℝ) ≤ r7lo - 1 := by
    unfold r7lo
    norm_num
  have hmono : (294320 : ℝ) * (r7lo - 1) / (1 - (r7hi ^ 300)⁻¹) ≤
      (1040 * (j : ℝ) - 26000) * (r7lo - 1) / (1 - (r7hi ^ 300)⁻¹) := by
    refine (div_le_div_iff_of_pos_right hDpos).mpr ?_
    exact mul_le_mul_of_nonneg_right hMge hr1
  have hnum : (21067 / 10 : ℝ) ≤ 294320 * (r7lo - 1) / (1 - (r7hi ^ 300)⁻¹) := by
    unfold r7lo r7hi
    norm_num
  intro hle
  unfold gdsAt housingCostAt monthlyPaymentAt at hle
  rw [exCtx_heating, exCtx_condo, exCtx_income, exCtx_tax] at hle
  rw [show exCtx.down = (25000 : ℝ) from rfl] at hle
  rw [mortJ j (by omega)] at hle
  unfold candidatePrice at hle
  unfold gdsCap at hle
  rw [div_le_iff₀ (by norm_num : (0 : ℝ) < 100000 / 12)] at hle
  have htax : (15 : ℝ) / 1000 * (1000 * (j : ℝ)) / 12 = 5 / 4 * (j : ℝ) := by ring
  rw [htax] at hle
  linarith

lemma affordFeasible_true (ctx : AffordCtx) (j : ℕ) :
    affordFeasible ctx j = true ↔
      (minDownRatio ≤ ctx.down / candidatePrice j ∧
        gdsAt ctx (candidatePrice j) ≤ gdsCap ∧
        tdsAt ctx (candidatePrice j) ≤ tdsCap) := by
  unfold affordFeasible affordCapsOK
  simp [Bool.and_eq_true, decide_eq_true_eq, and_assoc]

lemma feasible307 : affordFeasible exCtx 307 = true := by
  rw [affordFeasible_true]
  refine ⟨?_, gds307, tds307⟩
  rw [exCtx_down]
  unfold minDownRatio candidatePrice
  rw [le_div_iff₀ (by norm_num : (0 : ℝ) < 1000 * ((307 : ℕ) : ℝ))]
  norm_num

lemma infeasible_mid (j : ℕ) (hj : 308 ≤ j) (hj2 : j ≤ 500) :
    affordFeasible exCtx j = false := by
  unfold affordFeasible affordCapsOK
  rw [decide_eq_false (gds_high j hj hj2)]
  simp

lemma infeasible_high (j : ℕ) (hj : 501 ≤ j) : affordFeasible exCtx j = false := by
  have hj0 : (0 : ℝ) < (j : ℝ) := by exact_mod_cast (by omega : 0 < j)
  have h : ¬ (minDownRatio ≤ exCtx.down / candidatePrice j) := by
    rw [exCtx_down]
    unfold minDownRatio candidatePrice
    rw [not_le, div_lt_iff₀ (by positivity)]
    have hj' : (501 : ℝ) ≤ (j : ℝ) := by exact_mod_cast hj
    nlinarith
  unfold affordFeasible
  rw [decide_eq_false h]
  simp

lemma K_ex : searchCeiling 100000 = 1000 := by
  unfold searchCeiling
  rw [show (100000 : ℝ) / 100 = 1000 from by norm_num]
  rw [show ⌊(1000 : ℝ)⌋ = 1000 from by norm_num]
  rfl

lemma best_ex : affordBest 100000 25000 5.25 {} = 307 := by
  unfold affordBest
  rw [show affordCtxOf 100000 25000 (5.25 : ℝ) {} = exCtx from rfl, K_ex]
  refine searchBest_eq (by norm_num) (Or.inr feasible307) ?_
  intro j h1 h2
  rcases le_or_lt j 500 with h | h
  · exact infeasible_mid j (by omega) h
  · exact infeasible_high j (by omega)

lemma capsOK308 : affordCapsOK exCtx 308 = false := by
  unfold affordCapsOK
  rw [decide_eq_false (gds_high 308 (by norm_num) (by norm_num))]
  simp

/-- Spelled-out form of an `ok` affordability result. -/
lemma affordResult_pos (income down rate : ℝ) (opts : MortgageMaxOptions)
    (h : ¬ income ≤ 0) :
    affordResult income down rate opts =
      { annualIncome := income
        downPayment := down
        rate := rate
        rateTested := stressRate rate
        purchasePrice := candidatePrice (affordBest income down rate opts)
        mortgageAmount := mortgageAmountAt down
          (candidatePrice (affordBest income down rate opts))
        insurancePremium := premiumAmount
          (candidatePrice (affordBest income down rate opts)) down
        monthlyMortgagePayment := roundTo 2 (monthlyPaymentAt
          (affordCtxOf income down rate opts)
          (candidatePrice (affordBest income down rate opts)))
        grossDebtServiceRatio := roundTo 2 (gdsAt (affordCtxOf income down rate opts)
          (candidatePrice (affordBest income down rate opts)))
        totalDebtServiceRatio := roundTo 2 (tdsAt (affordCtxOf income down rate opts)
          (candidatePrice (affordBest income down rate opts)))
        reason := affordReason (affordCtxOf income down rate opts)
          (searchCeiling income) (affordBest income down rate opts)
        monthlyDebtPayment := (affordCtxOf income down rate opts).debt
        monthlyHeating := (affordCtxOf income down rate opts).heating
        isHeatingEstimate := opts.monthlyHeating.isNone
        monthlyTax := monthlyTaxAt (affordCtxOf income down rate opts)
          (candidatePrice (affordBest income down rate opts))
        isTaxEstimate := opts.monthlyTax.isNone
        monthlyCondoFees := (affordCtxOf income down rate opts).condo } := by
  unfold affordResult mortgageMaxAmount
  rw [if_neg h]
  rfl

end Affordability

/-- C5: `mortgageMaxAmount` qualifies at the stress-tested rate
`max(rate + 2, 5.25)` for every input rate on every successful call, and in
particular `mortgageMaxAmount(100000, 25000, 5.25)` returns rateTested 7.25,
purchasePrice 307000 and reason "debt limit". -/
theorem claim_C5 :
    (∀ (income down rate : ℝ) (opts : MortgageMaxOptions), 0 < income →
      (affordResult income down rate opts).rateTested = max (rate + 2) (525 / 100)) ∧
    (affordResult 100000 25000 5.25 {}).rateTested = 725 / 100 ∧
    (affordResult 100000 25000 5.25 {}).purchasePrice = 307000 ∧
    (affordResult 100000 25000 5.25 {}).reason = "debt limit" := by
  have hgen : ∀ (income down rate : ℝ) (opts : MortgageMaxOptions), 0 < income →
      (affordResult income down rate opts).rateTested = max (rate + 2) (525 / 100) := by
    intro income down rate opts h
    rw [affordResult_pos income down rate opts (not_le.mpr h)]
    rfl
  refine ⟨hgen, ?_, ?_, ?_⟩
  · rw [hgen 100000 25000 5.25 {} (by norm_num)]
    rw [max_eq_left (by norm_num)]
    norm_num
  · rw [affordResult_pos 100000 25000 5.25 {} (by norm_num)]
    show candidatePrice (affordBest 100000 25000 5.25 {}) = 307000
    rw [best_ex]
    unfold candidatePrice
    norm_num
  · rw [affordResult_pos 100000 25000 5.25 {} (by norm_num)]
    show affordReason (affordCtxOf 100000 25000 5.25 {}) (searchCeiling 100000)
      (affordBest 100000 25000 5.25 {}) = "debt limit"
    rw [show affordCtxOf 100000 25000 (5.25 : ℝ) {} = exCtx from rfl, K_ex, best_ex]
    unfold affordReason
    rw [if_neg (by norm_num)]
    rw [show (307 : ℕ) + 1 = 308 from rfl, capsOK308]
    rfl

/-- Witness for C5: the stress-test identity evaluated on the documented
example call. -/
theorem claim_C5_witness :
    0 < (100000 : ℝ) ∧
      (affordResult 100000 25000 5.25 {}).rateTested = max ((5.25 : ℝ) + 2) (525 / 100) :=
  ⟨by norm_num, claim_C5.1 100000 25000 5.25 {} (by norm_num)⟩

lemma searchBest_feasible {f : ℕ → Bool} :
    ∀ {K : ℕ}, (∃ m, m ≤ K ∧ f m = true) → f (searchBest f K) = true := by
  intro K
  induction K with
  | zero =>
      rintro ⟨m, hm, hf⟩
      have h0 : m = 0 := by omega
      subst h0
      exact hf
  | succ n ih =>
      rintro ⟨m, hm, hf⟩
      by_cases hcase : f (n + 1) = true
      · show f (searchBest f (n + 1)) = true
        unfold searchBest
        rw [if_pos hcase]
        exact hcase
      · show f (searchBest f (n + 1)) = true
        unfold searchBest
        rw [if_neg hcase]
        apply ih
        rcases Nat.eq_or_lt_of_le hm with he | hl
        · exfalso
          apply hcase
          rw [← he]
          exact hf
        · exact ⟨m, by omega, hf⟩

/-- C6 (amended): for every valid call to `mortgageMaxAmount` (positive
income, nonnegative down payment) for which some candidate price on the search
grid is feasible, the returned result satisfies GDS ≤ 0.39, TDS ≤ 0.44, a
down-payment ratio of at least 5 %, and
`mortgageAmount = purchasePrice − downPayment + insurancePremium(purchasePrice,
downPayment)`.  (Without a feasible candidate the search degenerates to price 0
and the fixed heating default alone can exceed the caps, see the
counterexample.) -/
theorem claim_C6 (income down rate : ℝ) (opts : MortgageMaxOptions)
    (hinc : 0 < income) (hdown : 0 ≤ down)
    (hex : ∃ j, j ≤ searchCeiling income ∧
      affordFeasible (affordCtxOf income down rate opts) j = true) :
    c6Feasibility income down rate opts := by
  have hfeas : affordFeasible (affordCtxOf income down rate opts)
      (affordBest income down rate opts) = true := searchBest_feasible hex
  rw [affordFeasible_true] at hfeas
  obtain ⟨hratio, hgds, htds⟩ := hfeas
  rw [show (affordCtxOf income down rate opts).down = down from rfl] at hratio
  unfold minDownRatio at hratio
  unfold c6Feasibility
  rw [affordResult_pos income down rate opts (not_le.mpr hinc)]
  refine ⟨?_, ?_, hratio, ?_, rfl⟩
  · show roundTo 2 (gdsAt (affordCtxOf income down rate opts)
      (candidatePrice (affordBest income down rate opts))) ≤ 39 / 100
    calc roundTo 2 (gdsAt (affordCtxOf income down rate opts)
        (candidatePrice (affordBest income down rate opts))) ≤ roundTo 2 gdsCap :=
          roundTo_mono 2 hgds
      _ ≤ 39 / 100 := by
          unfold gdsCap roundTo
          norm_num
  · show roundTo 2 (tdsAt (affordCtxOf income down rate opts)
      (candidatePrice (affordBest income down rate opts))) ≤ 44 / 100
    calc roundTo 2 (tdsAt (affordCtxOf income down rate opts)
        (candidatePrice (affordBest income down rate opts))) ≤ roundTo 2 tdsCap :=
          roundTo_mono 2 htds
      _ ≤ 44 / 100 := by
          unfold tdsCap roundTo
          norm_num
  · show mortgageInsurancePremium (candidatePrice (affordBest income down rate opts))
      down = .ok (premiumAmount (candidatePrice (affordBest income down rate opts)) down)
    unfold mortgageInsurancePremium
    rw [if_neg (not_lt.mpr hratio)]

/-- Witness for C6 at the documented example, whose grid index 307 is
feasible. -/
theorem claim_C6_witness :
    0 < (100000 : ℝ) ∧ 0 ≤ (25000 : ℝ) ∧ c6Feasibility 100000 25000 5.25 {} :=
  ⟨by norm_num, by norm_num, claim_C6 100000 25000 5.25 {} (by norm_num) (by norm_num)
    ⟨307, by rw [K_ex]; norm_num, feasible307⟩⟩

lemma K_small : searchCeiling 1000 = 10 := by
  unfold searchCeiling
  rw [show (1000 : ℝ) / 100 = 10 from by norm_num]
  rw [show ⌊(10 : ℝ)⌋ = 10 from by norm_num]
  rfl

lemma feasible0_false (j : ℕ) :
    affordFeasible (affordCtxOf 1000 0 (5.25 : ℝ) {}) j = false := by
  have h : ¬ (minDownRatio ≤ (affordCtxOf 1000 0 (5.25 : ℝ) {}).down /
      candidatePrice j) := by
    rw [show (affordCtxOf 1000 0 (5.25 : ℝ) {}).down = (0 : ℝ) from rfl]
    unfold minDownRatio
    rw [zero_div]
    norm_num
  unfold affordFeasible
  rw [decide_eq_false h]
  simp

lemma best0 : affordBest 1000 0 5.25 {} = 0 := by
  unfold affordBest
  rw [K_small]
  exact searchBest_eq (by norm_num) (Or.inl rfl) (fun j h1 h2 => feasible0_false j)

lemma prem00 : premiumAmount (0 : ℝ) 0 = 0 := by
  unfold premiumAmount
  rw [sub_self, mul_zero]
  unfold roundTo
  norm_num

lemma gds0 : gdsAt (affordCtxOf 1000 0 (5.25 : ℝ) {}) (candidatePrice 0) = 21 / 10 := by
  unfold gdsAt housingCostAt monthlyPaymentAt mortgageAmountAt
  rw [show candidatePrice 0 = (0 : ℝ) from by unfold candidatePrice; norm_num]
  rw [show (affordCtxOf 1000 0 (5.25 : ℝ) {}).down = (0 : ℝ) from rfl]
  rw [prem00]
  rw [show (affordCtxOf 1000 0 (5.25 : ℝ) {}).heating = (175 : ℝ) from rfl]
  rw [show (affordCtxOf 1000 0 (5.25 : ℝ) {}).condo = (0 : ℝ) from rfl]
  rw [show (affordCtxOf 1000 0 (5.25 : ℝ) {}).income = (1000 : ℝ) from rfl]
  rw [show monthlyTaxAt (affordCtxOf 1000 0 (5.25 : ℝ) {}) 0 =
    (15 : ℝ) / 1000 * 0 / 12 from rfl]
  unfold annuityPayment
  norm_num

/-- C6 counterexample: at annual income 1000 with no down payment — a valid
call — no candidate price is affordable, the search degenerates to price 0, and
the returned GDS is 2.1, far above the claimed 0.39 cap. -/
theorem claim_C6_counterexample :
    0 < (1000 : ℝ) ∧ 0 ≤ (0 : ℝ) ∧ ¬ c6Feasibility 1000 0 5.25 {} := by
  refine ⟨by norm_num, le_refl 0, ?_⟩
  intro h
  obtain ⟨h1, -⟩ := h
  rw [affordResult_pos 1000 0 5.25 {} (by norm_num)] at h1
  have h1' : roundTo 2 (gdsAt (affordCtxOf 1000 0 (5.25 : ℝ) {})
      (candidatePrice (affordBest 1000 0 5.25 {}))) ≤ 39 / 100 := h1
  rw [best0, gds0] at h1'
  unfold roundTo at h1'
  norm_num at h1'

end JournalismFinance
